import Mathlib

/-!
Verification of the DGL CPU SpMM / CUDA SDDMM kernel header
(`src/kernel/cpu/spmm.h` and the appended SDDMM compilation unit).

The kernels are shallowly embedded: dense feature buffers are total
functions `Nat → Int` (exact integer arithmetic models the templated
`DType`; for the compare reduction the `int32` instantiation is used so
that `std::numeric_limits` bounds are concrete), sparse matrices are
structures of index functions, and the parallel loop nests are
sequentialized into `List.foldl` over the corresponding index ranges.
Out-of-place writes are modelled with `Function.update` so that which
cells a kernel touches is part of the semantics.
-/

/-- Model of an `NDArray`: shape metadata plus flat row-major contents.
Only the fields the kernels actually read are modelled. -/
structure NDArray where
  shape : List Nat
  data : Nat → Int

/-- `aten::CSRMatrix`: `indptr`, `indices` and the optional `data`
edge-id permutation are flat index buffers; `nnz` mirrors
`indices->shape[0]`.  `data = none` models `aten::IsNullArray(csr.data)`. -/
structure CSRMatrix where
  num_rows : Nat
  num_cols : Nat
  nnz : Nat
  indptr : Nat → Nat
  indices : Nat → Nat
  data : Option (Nat → Nat)

/-- `aten::COOMatrix`: parallel `row`/`col` arrays of length `nnz` with the
optional `data` edge-id permutation. -/
structure COOMatrix where
  num_rows : Nat
  num_cols : Nat
  nnz : Nat
  row : Nat → Nat
  col : Nat → Nat
  data : Option (Nat → Nat)

/-- Broadcast descriptor (`BcastInfo`); only carried, never consumed, by the
unimplemented broadcast SpMM-over-CSR stubs. -/
structure BcastInfo where
  lhs_offset : List Nat
  rhs_offset : List Nat
  out_shape : List Nat
  lhs_shape : List Nat
  rhs_shape : List Nat

/-- A CPU SpMM binary value operator (the `Op` template parameter):
usage flags plus the combine function on already-dereferenced values.
The kernels below only feed `Call` an operand that the corresponding
usage flag enables; the other argument slot receives the junk value `0`,
modelling the `nullptr` that is passed but never dereferenced. -/
structure OpT where
  use_lhs : Bool
  use_rhs : Bool
  Call : Int → Int → Int

/-- A compare-reduction operator (the `Cmp` template parameter):
identity sentinel plus the replace predicate `Call accum val`. -/
structure CmpT where
  zero : Int
  Call : Int → Int → Bool

namespace op

/-- `op::Add`. -/
def Add : OpT := ⟨true, true, fun l r => l + r⟩

/-- `op::Mul`. -/
def Mul : OpT := ⟨true, true, fun l r => l * r⟩

/-- `op::CopyLhs`. -/
def CopyLhs : OpT := ⟨true, false, fun l _ => l⟩

/-- `op::CopyRhs`. -/
def CopyRhs : OpT := ⟨false, true, fun _ r => r⟩

/-- `std::numeric_limits<int32_t>::lowest()` for the `int32` instantiation
of `DType`. -/
def int32Lowest : Int := -(2 ^ 31)

/-- `std::numeric_limits<int32_t>::max()` for the `int32` instantiation
of `DType`. -/
def int32Max : Int := 2 ^ 31 - 1

/-- `op::Max` at `DType = int32`: sentinel is the lowest representable
value, replace when `accum < val`. -/
def Max : CmpT := ⟨int32Lowest, fun accum val => decide (accum < val)⟩

/-- `op::Min` at `DType = int32`: sentinel is the highest representable
value, replace when `accum > val`. -/
def Min : CmpT := ⟨int32Max, fun accum val => decide (accum > val)⟩

end op

/-- The `SWITCH_OP` runtime dispatch: operator name to operator type;
unknown names hit `LOG(FATAL)`, modelled as `Except.error`. -/
def SWITCH_OP (opName : String) : Except String OpT :=
  if opName = "add" then Except.ok op.Add
  else if opName = "mul" then Except.ok op.Mul
  else if opName = "copy_u" then Except.ok op.CopyLhs
  else if opName = "copy_e" then Except.ok op.CopyRhs
  else Except.error ("Unsupported SpMM binary operator: " ++ opName)

/-- Resolved edge id of CSR nonzero position `j`
(`has_idx ? edges[j] : j`). -/
def csrEid (csr : CSRMatrix) (j : Nat) : Nat :=
  match csr.data with
  | some edges => edges j
  | none => j

/-- Resolved edge id of COO nonzero position `i`
(`has_idx ? edges[i] : i`). -/
def cooEid (coo : COOMatrix) (i : Nat) : Nat :=
  match coo.data with
  | some edges => edges i
  | none => i

/-- The combined value `Op::Call(lhs_off, rhs_off)` of CSR nonzero `j` at
feature index `k` (spmm.h lines 80-84): `cid = indices[j]`,
`eid = has_idx ? edges[j] : j`, and the operand pointer is `nullptr`
(junk `0` here) whenever its usage flag is off. -/
def candVal (Op : OpT) (csr : CSRMatrix) (ufeat efeat : NDArray) (dim k j : Nat) : Int :=
  Op.Call (if Op.use_lhs then ufeat.data (csr.indices j * dim + k) else 0)
          (if Op.use_rhs then efeat.data (csrEid csr j * dim + k) else 0)

/-- The combined value of COO nonzero `i` at feature index `k`
(spmm.h lines 111-118): the left operand is indexed by `rid = row[i]`. -/
def cooCandVal (Op : OpT) (coo : COOMatrix) (ufeat efeat : NDArray) (dim k i : Nat) : Int :=
  Op.Call (if Op.use_lhs then ufeat.data (coo.row i * dim + k) else 0)
          (if Op.use_rhs then efeat.data (cooEid coo i * dim + k) else 0)

/-- Inner accumulation loop of `SpMMSumCsr` for one output cell:
`accum = 0; for (j = row_start; j < row_end; ++j) accum += Op::Call(...)`;
`s = indptr[rid]` and `n = indptr[rid+1] - indptr[rid]`. -/
def sumRowCell (Op : OpT) (csr : CSRMatrix) (ufeat efeat : NDArray) (dim k s n : Nat) : Int :=
  (List.range' s n).foldl (fun accum j => accum + candVal Op csr ufeat efeat dim k j) 0

/-- `SpMMSumCsr` (spmm.h lines 60-89).  The row-parallel loop nest writes
each output cell `rid*dim + k` (`rid < num_rows`, `k < dim`) exactly once,
so its sequential semantics is the per-cell function below; cells outside
the written region keep the caller-supplied contents `out0`.  `dim`
mirrors lines 69-71: the product of the output's feature dimensions. -/
def SpMMSumCsr (Op : OpT) (csr : CSRMatrix) (ufeat efeat : NDArray) (dim : Nat)
    (out0 : Nat → Int) : Nat → Int :=
  fun idx =>
    if idx < csr.num_rows * dim then
      sumRowCell Op csr ufeat efeat dim (idx % dim) (csr.indptr (idx / dim))
        (csr.indptr (idx / dim + 1) - csr.indptr (idx / dim))
    else out0 idx

/-- `SpMMSumCoo` (spmm.h lines 92-123), sequentialized: first the
`memset` of the whole output buffer (`outNumel = out.GetSize()` in
elements), then one atomic `out_off[k] += val` per nonzero and feature
position, in nonzero-major order. -/
def SpMMSumCoo (Op : OpT) (coo : COOMatrix) (ufeat efeat : NDArray) (dim outNumel : Nat)
    (out0 : Nat → Int) : Nat → Int :=
  (List.range coo.nnz).foldl
    (fun O i =>
      (List.range dim).foldl
        (fun O' k =>
          Function.update O' (coo.col i * dim + k)
            (O' (coo.col i * dim + k) + cooCandVal Op coo ufeat efeat dim k i))
        O)
    (fun idx => if idx < outNumel then 0 else out0 idx)

/-- Inner compare-accumulation loop of `SpMMCmpCsr` for one output cell
(spmm.h lines 147-163): state is `(accum, ax, aw)`, starting from
`(Cmp::zero, 0, 0)`; a replacement stores the candidate and, for each
operand the value operator uses, the contributing id. -/
def cmpRowCell (Op : OpT) (cmp : CmpT) (csr : CSRMatrix) (ufeat efeat : NDArray)
    (dim k s n : Nat) : Int × Nat × Nat :=
  (List.range' s n).foldl
    (fun st j =>
      if cmp.Call st.1 (candVal Op csr ufeat efeat dim k j) then
        (candVal Op csr ufeat efeat dim k j,
         if Op.use_lhs then csr.indices j else st.2.1,
         if Op.use_rhs then csrEid csr j else st.2.2)
      else st)
    (cmp.zero, 0, 0)

/-- `SpMMCmpCsr` (spmm.h lines 126-171): per-cell compare reduction; the
value tensor is written at every cell `rid*dim + k`, the argument tensors
only when the corresponding usage flag is on (their base pointers are
`nullptr` otherwise); untouched cells keep the caller-supplied contents. -/
def SpMMCmpCsr (Op : OpT) (cmp : CmpT) (csr : CSRMatrix) (ufeat efeat : NDArray)
    (dim : Nat) (out0 : Nat → Int) (argu0 arge0 : Nat → Nat) :
    (Nat → Int) × (Nat → Nat) × (Nat → Nat) :=
  (fun idx =>
    if idx < csr.num_rows * dim then
      (cmpRowCell Op cmp csr ufeat efeat dim (idx % dim) (csr.indptr (idx / dim))
        (csr.indptr (idx / dim + 1) - csr.indptr (idx / dim))).1
    else out0 idx,
   fun idx =>
    if Op.use_lhs = true ∧ idx < csr.num_rows * dim then
      (cmpRowCell Op cmp csr ufeat efeat dim (idx % dim) (csr.indptr (idx / dim))
        (csr.indptr (idx / dim + 1) - csr.indptr (idx / dim))).2.1
    else argu0 idx,
   fun idx =>
    if Op.use_rhs = true ∧ idx < csr.num_rows * dim then
      (cmpRowCell Op cmp csr ufeat efeat dim (idx % dim) (csr.indptr (idx / dim))
        (csr.indptr (idx / dim + 1) - csr.indptr (idx / dim))).2.2
    else arge0 idx)

/-- `SpMMCmpCoo` (spmm.h lines 173-218), sequentialized: the init loop
sets every value cell below `outNumel = out.Numel()` to `Cmp::zero`
(argument tensors are NOT initialized), then per nonzero and feature
position the critical section tests `Cmp::Call(out_off[k], val)` and on
success writes value and flag-guarded arguments together. -/
def SpMMCmpCoo (Op : OpT) (cmp : CmpT) (coo : COOMatrix) (ufeat efeat : NDArray)
    (dim outNumel : Nat) (out0 : Nat → Int) (argu0 arge0 : Nat → Nat) :
    (Nat → Int) × (Nat → Nat) × (Nat → Nat) :=
  (List.range coo.nnz).foldl
    (fun st i =>
      (List.range dim).foldl
        (fun st' k =>
          if cmp.Call (st'.1 (coo.col i * dim + k)) (cooCandVal Op coo ufeat efeat dim k i) then
            (Function.update st'.1 (coo.col i * dim + k) (cooCandVal Op coo ufeat efeat dim k i),
             if Op.use_lhs then Function.update st'.2.1 (coo.col i * dim + k) (coo.row i)
             else st'.2.1,
             if Op.use_rhs then Function.update st'.2.2 (coo.col i * dim + k) (cooEid coo i)
             else st'.2.2)
          else st')
        st)
    ((fun idx => if idx < outNumel then cmp.zero else out0 idx), argu0, arge0)

/-- `SpMMBcastSumCsr` (spmm.h lines 220-227): `LOG(FATAL) << "not implemented"`,
modelled as an `Except.error`; no output is ever produced. -/
def SpMMBcastSumCsr (_info : BcastInfo) (_csr : CSRMatrix) (_ufeat _efeat : NDArray)
    (_out0 : Nat → Int) : Except String (Nat → Int) :=
  Except.error ("not implemented")

/-- `SpMMBcastCmpCsr` (spmm.h lines 229-236): the same fatal stub. -/
def SpMMBcastCmpCsr (_info : BcastInfo) (_csr : CSRMatrix) (_ufeat _efeat : NDArray)
    (_out0 : Nat → Int) (_argu0 _arge0 : Nat → Nat) :
    Except String ((Nat → Int) × (Nat → Nat) × (Nat → Nat)) :=
  Except.error ("not implemented")

/-- `UnravelRavel` (spmm.h lines 18-57).  All runtime values are
non-negative in-range indices (data model §3), so `Nat` arithmetic models
the C++ `int64_t` operations exactly; the out-parameters are `0` on
entry and the pair `(lhs_out, rhs_out)` is returned. -/
def UnravelRavel (idx ndim : Nat)
    (out_shape out_stride lhs_shape lhs_stride rhs_shape rhs_stride : Nat → Nat) :
    Nat × Nat :=
  if out_stride 0 = lhs_stride 0 then
    (idx,
     (List.range ndim).foldl
       (fun rhs_out d =>
         if idx / out_stride d % out_shape d < rhs_shape d then
           rhs_out + idx / out_stride d % out_shape d * rhs_stride d
         else rhs_out)
       0)
  else
    ((List.range ndim).foldl
       (fun lhs_out d =>
         if idx / out_stride d % out_shape d < lhs_shape d then
           lhs_out + idx / out_stride d % out_shape d * lhs_stride d
         else lhs_out)
       0,
     idx)

/-- The spec's uniform broadcast-index formula (§4.1, claim C5): the sum
over dimensions of `min(coord_d, shape_d - 1) * stride_d`. -/
def ravelFormula (idx ndim : Nat) (out_shape out_stride sh st : Nat → Nat) : Nat :=
  ∑ d ∈ Finset.range ndim, min (idx / out_stride d % out_shape d) (sh d - 1) * st d

/-- Flat-memory read at a possibly negative (out-of-bounds) offset; a
negative pointer offset is undefined behaviour in the source, modelled
here as a junk read of `0`. -/
def readI (a : Nat → Int) (i : Int) : Int :=
  if 0 ≤ i then a i.toNat else 0

/-- The `while (lo < hi)` loop of `BinarySearchSrc`; the extra fuel
argument (any value ≥ the initial `hi - lo` suffices, the callers pass
`length`) makes the recursion structural. -/
def bsLoop (array : Nat → Nat) (eid : Nat) : Nat → Nat → Nat → Nat
  | 0, lo, _ => lo
  | fuel + 1, lo, hi =>
      if lo < hi then
        if array ((lo + hi) / 2) ≤ eid then bsLoop array eid fuel ((lo + hi) / 2 + 1) hi
        else bsLoop array eid fuel lo ((lo + hi) / 2)
      else lo

/-- `BinarySearchSrc` (sddmm lines 382-399): binary search of
`array[0 .. length-1]`, then return `hi` if `array[hi] == eid` else
`hi - 1` (which can be `-1`, hence the `Int` result). -/
def BinarySearchSrc (array : Nat → Nat) (length eid : Nat) : Int :=
  let hi := bsLoop array eid length 0 (length - 1)
  if array hi = eid then (hi : Int) else (hi : Int) - 1

/-- A CUDA SDDMM binary operator (the `BinaryOp` template parameter, not
part of this compilation unit): usage flags, whether it reduces over the
trailing dimension, and `Call` on the two shifted operand views plus the
reduce size. -/
structure CudaOp where
  use_lhs : Bool
  use_rhs : Bool
  reduce_last_dim : Bool
  Call : (Nat → Int) → (Nat → Int) → Nat → Int

/-- Modelled from the spec: the copy-right SDDMM value operator (§4.2,
§4.5) — uses only the right operand and combines pointwise (no trailing
reduction), so `Call` reads the right view at offset `0`. -/
def cudaCopyRhs : CudaOp :=
  ⟨false, true, false, fun _ rhs _ => rhs 0⟩

/-- `SDDMMCooKernel` (sddmm lines 347-379), sequentialized over the
grid-stride loops: every `(ty, tx)` with `ty < E`, `tx < out_len` is
executed once.  An operand whose usage flag is off gets a `nullptr`
base pointer, modelled as a junk view. -/
def SDDMMCooKernel (op : CudaOp) (ufeat vfeat out0 : Nat → Int)
    (row col : Nat → Nat) (edge_map : Option (Nat → Nat))
    (E reduce_size ufeat_len vfeat_len out_len : Nat)
    (ubcast_off vbcast_off : Option (Nat → Nat)) : Nat → Int :=
  (List.range E).foldl
    (fun O ty =>
      let src := row ty
      let dst := col ty
      let eid := match edge_map with | some m => m ty | none => ty
      let lhsoff : Nat → Int :=
        if op.use_lhs then fun d => ufeat (src * ufeat_len * reduce_size + d) else fun _ => 0
      let rhsoff : Nat → Int :=
        if op.use_rhs then fun d => vfeat (dst * vfeat_len * reduce_size + d) else fun _ => 0
      (List.range out_len).foldl
        (fun O' tx =>
          let lhs_add := match ubcast_off with | some b => b tx | none => tx
          let rhs_add := match vbcast_off with | some b => b tx | none => tx
          Function.update O' (eid * out_len + tx)
            (op.Call (fun d => lhsoff (lhs_add * reduce_size + d))
              (fun d => rhsoff (rhs_add * reduce_size + d)) reduce_size))
        O)
    out0

/-- `SDDMMCsrKernel` (sddmm lines 403-434), sequentialized: the source
node is recovered with `BinarySearchSrc(indptr, N, ty)` exactly as the
code invokes it (length argument `N`, the row count), so `src` may be a
wrong row or even `-1`; the left base pointer is `ufeat + src*ufeat_len`
(no `reduce_size` factor, unlike the COO kernel). -/
def SDDMMCsrKernel (op : CudaOp) (ufeat vfeat out0 : Nat → Int)
    (indptr indices : Nat → Nat) (edge_map : Option (Nat → Nat))
    (N E reduce_size ufeat_len vfeat_len out_len : Nat)
    (ubcast_off vbcast_off : Option (Nat → Nat)) : Nat → Int :=
  (List.range E).foldl
    (fun O ty =>
      let src := BinarySearchSrc indptr N ty
      let dst := indices ty
      let eid := match edge_map with | some m => m ty | none => ty
      let lhsoff : Int → Int :=
        if op.use_lhs then fun i => readI ufeat (src * (ufeat_len : Int) + i) else fun _ => 0
      let rhsoff : Nat → Int :=
        if op.use_rhs then fun d => vfeat (dst * vfeat_len + d) else fun _ => 0
      (List.range out_len).foldl
        (fun O' tx =>
          let lhs_add := match ubcast_off with | some b => b tx | none => tx
          let rhs_add := match vbcast_off with | some b => b tx | none => tx
          Function.update O' (eid * out_len + tx)
            (op.Call (fun d => lhsoff ((lhs_add * reduce_size + d : Nat) : Int))
              (fun d => rhsoff (rhs_add * reduce_size + d)) reduce_size))
        O)
    out0

/-- `len = 1; for (i = 1; i < ndim; ++i) len *= shape[i]`. -/
def featLen (shape : List Nat) : Nat :=
  (shape.drop 1).foldl (fun a b => a * b) 1

/-- `SDDMMCoo` host entry (sddmm lines 437-478): feature length from the
OUTPUT tensor's shape, reduce dimension from `ufeat` only when the
operator reduces over the trailing dimension; no broadcast offsets. -/
def SDDMMCoo (op : CudaOp) (coo : COOMatrix) (ufeat vfeat out : NDArray) : Nat → Int :=
  let len := featLen out.shape
  let reduce_dim := if op.reduce_last_dim then ufeat.shape.getLastD 1 else 1
  SDDMMCooKernel op ufeat.data vfeat.data out.data coo.row coo.col coo.data
    coo.nnz reduce_dim len len len none none

/-- `SDDMMCsr` host entry (sddmm lines 541-576): the feature length is
computed from UFEAT's shape (lines 556-558) — even when the operator does
not use the left operand — and passed as `ufeat_len`, `vfeat_len` and
`out_len` alike. -/
def SDDMMCsr (op : CudaOp) (csr : CSRMatrix) (ufeat vfeat out : NDArray) : Nat → Int :=
  let len := featLen ufeat.shape
  let reduce_dim := if op.reduce_last_dim then ufeat.shape.getLastD 1 else 1
  SDDMMCsrKernel op ufeat.data vfeat.data out.data csr.indptr csr.indices csr.data
    csr.num_rows csr.nnz reduce_dim len len len none none

/-- The halving loop of `utils::FindNumThreads`. -/
def fntLoop (dim : Nat) : Nat → Nat → Nat
  | 0, ret => ret
  | fuel + 1, ret => if dim < ret then fntLoop dim fuel (ret / 2) else ret

/-- Modelled from the spec: `utils::FindNumThreads` is not part of this
compilation unit; per §5 the feature-axis block dimension is chosen
"close to but not exceeding" the cap — shrink the cap by halving while it
exceeds the requested width, never below 1. -/
def FindNumThreads (dim max_nthrs : Nat) : Nat :=
  max (fntLoop dim max_nthrs max_nthrs) 1

/-- The launch configuration `((nbx, nby), (ntx, nty))` of `SDDMMCoo`
(sddmm lines 462-468): feature-axis block width from `FindNumThreads`,
remaining capacity on the edge axis, grids rounded up. -/
def SDDMMCooLaunch (len nnz : Nat) : (Nat × Nat) × (Nat × Nat) :=
  let ntx := FindNumThreads len 1024
  let nty := 1024 / ntx
  ((( len + ntx - 1) / ntx, (nnz + nty - 1) / nty), (ntx, nty))

/-- The launch configuration of `SDDMMCsr` (sddmm lines 565-566):
`nblks(E, 1)` and `nthrs(1, (128 < len) ? 128 : len)`. -/
def SDDMMCsrLaunch (len E : Nat) : (Nat × Nat) × (Nat × Nat) :=
  ((E, 1), (1, if 128 < len then 128 else len))

/-- Claim C4 conclusion for the `Max` operator (amended): the replace
predicate is strict `<` and the sentinel is the lowest `int32`; the
stored value dominates and (for nonempty rows) is attained by a
candidate; empty rows give the identity with arguments `0`; when the
stored value exceeds the identity the arguments record the first
candidate attaining it, and when it equals the identity the arguments
are `0` (even if a candidate attained it). -/
def CmpCsrMaxSpec (Op : OpT) (csr : CSRMatrix) (u e : NDArray) (dim : Nat)
    (out0 : Nat → Int) (argu0 arge0 : Nat → Nat) (r k : Nat) : Prop :=
  op.Max.zero = op.int32Lowest
  ∧ (∀ a b, op.Max.Call a b = true ↔ a < b)
  ∧ (∀ j, csr.indptr r ≤ j → j < csr.indptr (r + 1) →
      candVal Op csr u e dim k j
        ≤ (SpMMCmpCsr Op op.Max csr u e dim out0 argu0 arge0).1 (r * dim + k))
  ∧ (csr.indptr r < csr.indptr (r + 1) →
      ∃ j, csr.indptr r ≤ j ∧ j < csr.indptr (r + 1)
        ∧ candVal Op csr u e dim k j
            = (SpMMCmpCsr Op op.Max csr u e dim out0 argu0 arge0).1 (r * dim + k))
  ∧ (csr.indptr (r + 1) ≤ csr.indptr r →
      (SpMMCmpCsr Op op.Max csr u e dim out0 argu0 arge0).1 (r * dim + k) = op.int32Lowest
      ∧ (Op.use_lhs = true →
          (SpMMCmpCsr Op op.Max csr u e dim out0 argu0 arge0).2.1 (r * dim + k) = 0)
      ∧ (Op.use_rhs = true →
          (SpMMCmpCsr Op op.Max csr u e dim out0 argu0 arge0).2.2 (r * dim + k) = 0))
  ∧ (op.int32Lowest < (SpMMCmpCsr Op op.Max csr u e dim out0 argu0 arge0).1 (r * dim + k) →
      ∃ j, csr.indptr r ≤ j ∧ j < csr.indptr (r + 1)
        ∧ candVal Op csr u e dim k j
            = (SpMMCmpCsr Op op.Max csr u e dim out0 argu0 arge0).1 (r * dim + k)
        ∧ (∀ j', csr.indptr r ≤ j' → j' < j →
            candVal Op csr u e dim k j'
              < (SpMMCmpCsr Op op.Max csr u e dim out0 argu0 arge0).1 (r * dim + k))
        ∧ (Op.use_lhs = true →
            (SpMMCmpCsr Op op.Max csr u e dim out0 argu0 arge0).2.1 (r * dim + k)
              = csr.indices j)
        ∧ (Op.use_rhs = true →
            (SpMMCmpCsr Op op.Max csr u e dim out0 argu0 arge0).2.2 (r * dim + k)
              = csrEid csr j))
  ∧ ((SpMMCmpCsr Op op.Max csr u e dim out0 argu0 arge0).1 (r * dim + k) = op.int32Lowest →
      (Op.use_lhs = true →
        (SpMMCmpCsr Op op.Max csr u e dim out0 argu0 arge0).2.1 (r * dim + k) = 0)
      ∧ (Op.use_rhs = true →
        (SpMMCmpCsr Op op.Max csr u e dim out0 argu0 arge0).2.2 (r * dim + k) = 0))

/-- Claim C4 conclusion for the `Min` operator (amended), the mirror of
`CmpCsrMaxSpec`. -/
def CmpCsrMinSpec (Op : OpT) (csr : CSRMatrix) (u e : NDArray) (dim : Nat)
    (out0 : Nat → Int) (argu0 arge0 : Nat → Nat) (r k : Nat) : Prop :=
  op.Min.zero = op.int32Max
  ∧ (∀ a b, op.Min.Call a b = true ↔ b < a)
  ∧ (∀ j, csr.indptr r ≤ j → j < csr.indptr (r + 1) →
      (SpMMCmpCsr Op op.Min csr u e dim out0 argu0 arge0).1 (r * dim + k)
        ≤ candVal Op csr u e dim k j)
  ∧ (csr.indptr r < csr.indptr (r + 1) →
      ∃ j, csr.indptr r ≤ j ∧ j < csr.indptr (r + 1)
        ∧ candVal Op csr u e dim k j
            = (SpMMCmpCsr Op op.Min csr u e dim out0 argu0 arge0).1 (r * dim + k))
  ∧ (csr.indptr (r + 1) ≤ csr.indptr r →
      (SpMMCmpCsr Op op.Min csr u e dim out0 argu0 arge0).1 (r * dim + k) = op.int32Max
      ∧ (Op.use_lhs = true →
          (SpMMCmpCsr Op op.Min csr u e dim out0 argu0 arge0).2.1 (r * dim + k) = 0)
      ∧ (Op.use_rhs = true →
          (SpMMCmpCsr Op op.Min csr u e dim out0 argu0 arge0).2.2 (r * dim + k) = 0))
  ∧ ((SpMMCmpCsr Op op.Min csr u e dim out0 argu0 arge0).1 (r * dim + k) < op.int32Max →
      ∃ j, csr.indptr r ≤ j ∧ j < csr.indptr (r + 1)
        ∧ candVal Op csr u e dim k j
            = (SpMMCmpCsr Op op.Min csr u e dim out0 argu0 arge0).1 (r * dim + k)
        ∧ (∀ j', csr.indptr r ≤ j' → j' < j →
            (SpMMCmpCsr Op op.Min csr u e dim out0 argu0 arge0).1 (r * dim + k)
              < candVal Op csr u e dim k j')
        ∧ (Op.use_lhs = true →
            (SpMMCmpCsr Op op.Min csr u e dim out0 argu0 arge0).2.1 (r * dim + k)
              = csr.indices j)
        ∧ (Op.use_rhs = true →
            (SpMMCmpCsr Op op.Min csr u e dim out0 argu0 arge0).2.2 (r * dim + k)
              = csrEid csr j))
  ∧ ((SpMMCmpCsr Op op.Min csr u e dim out0 argu0 arge0).1 (r * dim + k) = op.int32Max →
      (Op.use_lhs = true →
        (SpMMCmpCsr Op op.Min csr u e dim out0 argu0 arge0).2.1 (r * dim + k) = 0)
      ∧ (Op.use_rhs = true →
        (SpMMCmpCsr Op op.Min csr u e dim out0 argu0 arge0).2.2 (r * dim + k) = 0))

/-- Claim C3 conclusion: at every output cell, the sequential CSR and
COO sum kernels agree, and the sequential CSR and COO compare kernels
produce the same VALUE output (the argument tensors are not compared). -/
def CsrCooEquivSpec (Op : OpT) (cmp : CmpT) (csr : CSRMatrix) (coo : COOMatrix)
    (u e : NDArray) (dim : Nat) (out0 out0' : Nat → Int)
    (argu0 arge0 argu0' arge0' : Nat → Nat) (r k : Nat) : Prop :=
  SpMMSumCsr Op csr u e dim out0 (r * dim + k)
      = SpMMSumCoo Op coo u e dim (csr.num_rows * dim) out0' (r * dim + k)
  ∧ (SpMMCmpCsr Op cmp csr u e dim out0 argu0 arge0).1 (r * dim + k)
      = (SpMMCmpCoo Op cmp coo u e dim (csr.num_rows * dim) out0' argu0' arge0').1
          (r * dim + k)

/-- Claim C10 conclusion, COO side: at a column no nonzero targets, the
argument outputs of `SpMMCmpCoo` are exactly the caller-supplied
contents, while the value output is the initialized identity. -/
def CmpCooFrameSpec (Op : OpT) (cmp : CmpT) (coo : COOMatrix) (u e : NDArray)
    (dim outNumel : Nat) (out0 : Nat → Int) (argu0 arge0 : Nat → Nat) (c k : Nat) : Prop :=
  (SpMMCmpCoo Op cmp coo u e dim outNumel out0 argu0 arge0).2.1 (c * dim + k)
      = argu0 (c * dim + k)
  ∧ (SpMMCmpCoo Op cmp coo u e dim outNumel out0 argu0 arge0).2.2 (c * dim + k)
      = arge0 (c * dim + k)
  ∧ (c * dim + k < outNumel →
      (SpMMCmpCoo Op cmp coo u e dim outNumel out0 argu0 arge0).1 (c * dim + k) = cmp.zero)

/-- Claim C10 conclusion, CSR side: at an empty row, `SpMMCmpCsr` writes
the identity value and argument `0` into each argument tensor the value
operator uses. -/
def CmpCsrEmptyRowSpec (Op : OpT) (cmp : CmpT) (csr : CSRMatrix) (u e : NDArray)
    (dim : Nat) (out0 : Nat → Int) (argu0 arge0 : Nat → Nat) (r k : Nat) : Prop :=
  (SpMMCmpCsr Op cmp csr u e dim out0 argu0 arge0).1 (r * dim + k) = cmp.zero
  ∧ (Op.use_lhs = true →
      (SpMMCmpCsr Op cmp csr u e dim out0 argu0 arge0).2.1 (r * dim + k) = 0)
  ∧ (Op.use_rhs = true →
      (SpMMCmpCsr Op cmp csr u e dim out0 argu0 arge0).2.2 (r * dim + k) = 0)

/-- Claim C5 conclusion (amended): on the fast path (matching leading
strides) the left operand receives exactly `idx` and the right operand
the `min`-formula index; on the slow path the roles are swapped. -/
def RavelSpec (idx ndim : Nat)
    (out_shape out_stride lhs_shape lhs_stride rhs_shape rhs_stride : Nat → Nat) : Prop :=
  (out_stride 0 = lhs_stride 0 →
    UnravelRavel idx ndim out_shape out_stride lhs_shape lhs_stride rhs_shape rhs_stride
      = (idx, ravelFormula idx ndim out_shape out_stride rhs_shape rhs_stride))
  ∧ (out_stride 0 ≠ lhs_stride 0 →
    UnravelRavel idx ndim out_shape out_stride lhs_shape lhs_stride rhs_shape rhs_stride
      = (ravelFormula idx ndim out_shape out_stride lhs_shape lhs_stride, idx))

/-- Claim C6 conclusion (amended): a value operator with a usage flag
off makes the corresponding feature tensor (data AND metadata) irrelevant
to every SpMM kernel; on the SDDMM side, an unused `vfeat` is irrelevant
to both entry points, and an unused `ufeat` is irrelevant to `SDDMMCoo`
(when the operator does not reduce over the trailing dimension), but for
`SDDMMCsr` only the DATA of an unused `ufeat` is irrelevant — its shape
metadata still determines the feature length (lines 556-558). -/
def UnusedOperandSpec (Op : OpT) (cmp : CmpT) (cop : CudaOp) (csr : CSRMatrix)
    (coo : COOMatrix) (u u' e e' vf vf' out : NDArray) (dim outNumel : Nat)
    (out0 : Nat → Int) (argu0 arge0 : Nat → Nat) : Prop :=
  (Op.use_lhs = false →
      SpMMSumCsr Op csr u e dim out0 = SpMMSumCsr Op csr u' e dim out0
      ∧ SpMMSumCoo Op coo u e dim outNumel out0 = SpMMSumCoo Op coo u' e dim outNumel out0
      ∧ SpMMCmpCsr Op cmp csr u e dim out0 argu0 arge0
          = SpMMCmpCsr Op cmp csr u' e dim out0 argu0 arge0
      ∧ SpMMCmpCoo Op cmp coo u e dim outNumel out0 argu0 arge0
          = SpMMCmpCoo Op cmp coo u' e dim outNumel out0 argu0 arge0)
  ∧ (Op.use_rhs = false →
      SpMMSumCsr Op csr u e dim out0 = SpMMSumCsr Op csr u e' dim out0
      ∧ SpMMSumCoo Op coo u e dim outNumel out0 = SpMMSumCoo Op coo u e' dim outNumel out0
      ∧ SpMMCmpCsr Op cmp csr u e dim out0 argu0 arge0
          = SpMMCmpCsr Op cmp csr u e' dim out0 argu0 arge0
      ∧ SpMMCmpCoo Op cmp coo u e dim outNumel out0 argu0 arge0
          = SpMMCmpCoo Op cmp coo u e' dim outNumel out0 argu0 arge0)
  ∧ (cop.use_lhs = false → cop.reduce_last_dim = false →
      SDDMMCoo cop coo u vf out = SDDMMCoo cop coo u' vf out)
  ∧ (cop.use_rhs = false →
      SDDMMCoo cop coo u vf out = SDDMMCoo cop coo u vf' out
      ∧ SDDMMCsr cop csr u vf out = SDDMMCsr cop csr u vf' out)
  ∧ (cop.use_lhs = false → u.shape = u'.shape →
      SDDMMCsr cop csr u vf out = SDDMMCsr cop csr u' vf out)

/-- Claim C1 conclusion, packaged so the witness can restate it:
each output cell of the CSR sum kernel is the spec's sum over the row's
nonzero range, and empty rows give exactly `0`. -/
def SumCsrSpec (Op : OpT) (csr : CSRMatrix) (u e : NDArray) (dim : Nat)
    (out0 : Nat → Int) (r k : Nat) : Prop :=
  SpMMSumCsr Op csr u e dim out0 (r * dim + k)
      = ∑ j ∈ Finset.Ico (csr.indptr r) (csr.indptr (r + 1)),
          Op.Call (u.data (csr.indices j * dim + k))
            (e.data (csrEid csr j * dim + k))
    ∧ (csr.indptr (r + 1) = csr.indptr r →
        SpMMSumCsr Op csr u e dim out0 (r * dim + k) = 0)

/-!  Helper lemmas: list folds over index ranges. -/

/-- A left fold of additions over `[s, s+n)` is the matching `Finset` sum. -/
lemma foldl_add_range' (f : Nat → Int) :
    ∀ (n s : Nat) (a : Int),
      (List.range' s n).foldl (fun accum j => accum + f j) a
        = a + ∑ j ∈ Finset.Ico s (s + n), f j := by
  intro n
  induction n with
  | zero => intro s a; simp
  | succ m ih =>
      intro s a
      rw [List.range'_succ]
      have hlt : s < s + (m + 1) := by omega
      rw [Finset.sum_eq_sum_Ico_succ_bot hlt]
      have := ih (s + 1) (a + f s)
      simp only [List.foldl_cons, this]
      have : s + 1 + m = s + (m + 1) := by omega
      rw [this]
      ring

/-- Flat-cell decomposition: `(r*dim + k) / dim = r` and
`(r*dim + k) % dim = k` when `k < dim`. -/
lemma cell_decomp (r k dim : Nat) (hk : k < dim) :
    (r * dim + k) / dim = r ∧ (r * dim + k) % dim = k := by
  have hdim : 0 < dim := Nat.pos_of_ne_zero (by omega)
  constructor
  · rw [Nat.mul_comm r dim, Nat.mul_add_div hdim, Nat.div_eq_of_lt hk, Nat.add_zero]
  · rw [Nat.mul_comm r dim, Nat.mul_add_mod, Nat.mod_eq_of_lt hk]

/-- A written cell is inside the output extent. -/
lemma cell_lt (r k dim num : Nat) (hr : r < num) (hk : k < dim) :
    r * dim + k < num * dim := by
  calc r * dim + k < r * dim + dim := by omega
  _ = (r + 1) * dim := by ring
  _ ≤ num * dim := Nat.mul_le_mul_right dim hr

/-- Two flat cells with in-range feature components coincide only if both
components coincide. -/
lemma cell_eq_iff (a b k k' dim : Nat) (hk : k < dim) (hk' : k' < dim) :
    a * dim + k = b * dim + k' ↔ a = b ∧ k = k' := by
  constructor
  · intro h
    have ha := cell_decomp a k dim hk
    have hb := cell_decomp b k' dim hk'
    constructor
    · rw [← ha.1, ← hb.1, h]
    · rw [← ha.2, ← hb.2, h]
  · rintro ⟨rfl, rfl⟩; rfl

/-- Local (per-step) monotonicity of `indptr` gives interval monotonicity. -/
lemma indptr_mono {f : Nat → Nat} {n : Nat}
    (h : ∀ a, a < n → f a ≤ f (a + 1)) :
    ∀ a b, a ≤ b → b ≤ n → f a ≤ f b := by
  intro a b
  induction b with
  | zero =>
      intro hab _
      have : a = 0 := by omega
      rw [this]
  | succ m ih =>
      intro hab hbn
      rcases Nat.eq_or_lt_of_le hab with rfl | hlt
      · exact Nat.le_refl _
      · exact Nat.le_trans (ih (by omega) (by omega)) (h m (by omega))

/-- Unfolding `SpMMSumCsr` at a written cell. -/
lemma SpMMSumCsr_cell (Op : OpT) (csr : CSRMatrix) (u e : NDArray) (dim : Nat)
    (out0 : Nat → Int) (r k : Nat) (hr : r < csr.num_rows) (hk : k < dim) :
    SpMMSumCsr Op csr u e dim out0 (r * dim + k)
      = sumRowCell Op csr u e dim k (csr.indptr r)
          (csr.indptr (r + 1) - csr.indptr r) := by
  have hd := cell_decomp r k dim hk
  unfold SpMMSumCsr
  rw [if_pos (cell_lt r k dim csr.num_rows hr hk), hd.1, hd.2]

/-- Claim C1: for a CSR matrix with monotone `indptr` spanning the indices
array and any supported value operator, `SpMMSumCsr` writes at `out[r,k]`
the sum over nonzero positions `j ∈ [indptr[r], indptr[r+1])` of
`combine(ufeat[indices[j]*dim+k], efeat[eid*dim+k])` with
`eid = data[j]` when the permutation is present and `eid = j` otherwise;
empty rows get exactly `0`. -/
theorem spmm_sum_csr_correct (Op : OpT)
    (hOp : Op ∈ [op.Add, op.Mul, op.CopyLhs, op.CopyRhs])
    (csr : CSRMatrix) (u e : NDArray) (dim : Nat) (out0 : Nat → Int) (r k : Nat)
    (hmono : ∀ a, a < csr.num_rows → csr.indptr a ≤ csr.indptr (a + 1))
    (_hlo : csr.indptr 0 = 0) (_hhi : csr.indptr csr.num_rows = csr.nnz)
    (hr : r < csr.num_rows) (hk : k < dim) :
    SumCsrSpec Op csr u e dim out0 r k := by
  have hse : csr.indptr r ≤ csr.indptr (r + 1) := hmono r hr
  have hcell := SpMMSumCsr_cell Op csr u e dim out0 r k hr hk
  have hfold : SpMMSumCsr Op csr u e dim out0 (r * dim + k)
      = ∑ j ∈ Finset.Ico (csr.indptr r) (csr.indptr (r + 1)),
          candVal Op csr u e dim k j := by
    rw [hcell]
    unfold sumRowCell
    rw [foldl_add_range' (candVal Op csr u e dim k)
      (csr.indptr (r + 1) - csr.indptr r) (csr.indptr r) 0]
    have : csr.indptr r + (csr.indptr (r + 1) - csr.indptr r) = csr.indptr (r + 1) := by omega
    rw [this, Int.zero_add]
  constructor
  · rw [hfold]
    apply Finset.sum_congr rfl
    intro j _
    fin_cases hOp <;> simp [candVal, op.Add, op.Mul, op.CopyLhs, op.CopyRhs]
  · intro hempty
    rw [hfold, hempty]
    simp

/-- Witness for C1 at a concrete 2-row, 3-nonzero CSR with the `Add`
operator. -/
theorem spmm_sum_csr_correct_witness :
    SumCsrSpec op.Add ⟨2, 2, 3, fun r => [0, 2, 3].getD r 0, fun j => [1, 0, 1].getD j 0, none⟩
      ⟨[2, 1], fun i => [10, 20].getD i 0⟩ ⟨[3, 1], fun i => [1, 2, 3].getD i 0⟩
      1 (fun _ => 0) 0 0 :=
  spmm_sum_csr_correct op.Add (by simp)
    ⟨2, 2, 3, fun r => [0, 2, 3].getD r 0, fun j => [1, 0, 1].getD j 0, none⟩
    ⟨[2, 1], fun i => [10, 20].getD i 0⟩ ⟨[3, 1], fun i => [1, 2, 3].getD i 0⟩
    1 (fun _ => 0) 0 0 (by decide) (by decide) (by decide) (by decide) (by decide)


/-!  Scatter-fold machinery for the COO kernels. -/

/-- `List.range'` with unit step, appended at the top end. -/
lemma range'_concat_one (s n : Nat) :
    List.range' s (n + 1) = List.range' s n ++ [s + n] := by
  exact List.range'_1_concat s n

/-- Projecting the first component out of a fold whose first component
evolves autonomously. -/
lemma foldl_fst {σ τ ι : Type} (F : σ × τ → ι → σ × τ) (f : σ → ι → σ)
    (hF : ∀ st x, (F st x).1 = f st.1 x) :
    ∀ (L : List ι) (st : σ × τ), (L.foldl F st).1 = L.foldl f st.1 := by
  intro L
  induction L with
  | nil => intro st; rfl
  | cons x L ih =>
      intro st
      simp only [List.foldl_cons, ih (F st x), hF st x]

/-- Cell-local updates of one inner feature loop: frame. -/
lemma innerUpd_frame (t dim : Nat) (g : Int → Nat → Int) (idx : Nat) :
    ∀ (m : Nat), (∀ k', k' < m → t * dim + k' ≠ idx) → ∀ (O : Nat → Int),
      ((List.range m).foldl
        (fun O' k' => Function.update O' (t * dim + k') (g (O' (t * dim + k')) k')) O) idx
        = O idx := by
  intro m
  induction m with
  | zero => intro _ O; rfl
  | succ m ih =>
      intro h O
      rw [List.range_succ, List.foldl_append]
      simp only [List.foldl_cons, List.foldl_nil]
      rw [Function.update_noteq (Ne.symm (h m (by omega)))]
      exact ih (fun k' hk' => h k' (by omega)) O

/-- Cell-local updates of one inner feature loop: the hit cell. -/
lemma innerUpd_hit (t dim : Nat) (g : Int → Nat → Int) (k : Nat) (hk : k < dim) :
    ∀ (m : Nat), k < m → ∀ (O : Nat → Int),
      ((List.range m).foldl
        (fun O' k' => Function.update O' (t * dim + k') (g (O' (t * dim + k')) k')) O)
        (t * dim + k)
        = g (O (t * dim + k)) k := by
  intro m
  induction m with
  | zero => intro h; omega
  | succ m ih =>
      intro hkm O
      rw [List.range_succ, List.foldl_append]
      simp only [List.foldl_cons, List.foldl_nil]
      rcases Nat.lt_or_ge k m with hlt | hge
      · rw [Function.update_noteq fun he =>
          absurd ((cell_eq_iff t t k m dim hk (by omega)).mp he).2 (by omega)]
        exact ih hlt O
      · have hmk : m = k := by omega
        subst hmk
        have hfr := innerUpd_frame t dim g (t * dim + m) m
          (fun k' hk' he =>
            absurd ((cell_eq_iff t t k' m dim (by omega) hk).mp he).2 (by omega)) O
        rw [Function.update_same, hfr]

/-- Projection of the full scatter fold at one output cell: the fold
restricted to the nonzeros that target the cell's row. -/
lemma scatter_proj (dim : Nat) (col : Nat → Nat) (g : Nat → Int → Nat → Int)
    (c k : Nat) (hk : k < dim) :
    ∀ (n : Nat) (O : Nat → Int),
      ((List.range n).foldl
        (fun O i =>
          (List.range dim).foldl
            (fun O' k' => Function.update O' (col i * dim + k') (g i (O' (col i * dim + k')) k'))
            O)
        O) (c * dim + k)
      = ((List.range n).filter (fun i => decide (col i = c))).foldl
          (fun a i => g i a k) (O (c * dim + k)) := by
  intro n
  induction n with
  | zero => intro O; rfl
  | succ n ih =>
      intro O
      rw [List.range_succ, List.foldl_append, List.filter_append]
      simp only [List.foldl_cons, List.foldl_nil, List.filter_cons, List.filter_nil]
      rcases Decidable.em (col n = c) with hc | hc
      · subst hc
        have hd : decide (col n = col n) = true := by simp
        rw [hd]
        simp only [if_true, List.foldl_append, List.foldl_cons, List.foldl_nil]
        rw [innerUpd_hit (col n) dim (g n) k hk dim hk, ih O]
      · have hd : decide (col n = c) = false := by simpa using hc
        rw [hd]
        simp only [Bool.false_eq_true, if_false, List.foldl_append]
        rw [innerUpd_frame (col n) dim (g n) (c * dim + k) dim
          (fun k' hk' he => hc ((cell_eq_iff (col n) c k' k dim hk' hk).mp he).1)]
        exact ih O

/-- Frame of the full scatter fold: a cell no nonzero targets keeps its
initial value. -/
lemma scatter_frame (dim : Nat) (col : Nat → Nat) (g : Nat → Int → Nat → Int) (idx : Nat) :
    ∀ (n : Nat) (O : Nat → Int), (∀ i, i < n → ∀ k', k' < dim → col i * dim + k' ≠ idx) →
      ((List.range n).foldl
        (fun O i =>
          (List.range dim).foldl
            (fun O' k' => Function.update O' (col i * dim + k') (g i (O' (col i * dim + k')) k'))
            O)
        O) idx = O idx := by
  intro n
  induction n with
  | zero => intro O _; rfl
  | succ n ih =>
      intro O h
      rw [List.range_succ, List.foldl_append]
      simp only [List.foldl_cons, List.foldl_nil]
      rw [innerUpd_frame (col n) dim (g n) idx dim (h n (by omega))]
      exact ih O fun i hi k' hk' => h i (by omega) k' hk'

/-- A filtered `List.range` whose predicate carves out the interval
`[s, e)` is exactly `List.range' s (e - s)`. -/
lemma filter_range_eq_range' (p : Nat → Bool) (s : Nat) :
    ∀ (n e : Nat), s ≤ e → e ≤ n → (∀ i, i < n → (p i = true ↔ s ≤ i ∧ i < e)) →
      (List.range n).filter p = List.range' s (e - s) := by
  intro n
  induction n with
  | zero =>
      intro e h1 h2 _
      have he : e = 0 := by omega
      have hs : s = 0 := by omega
      subst he; subst hs
      rfl
  | succ m ih =>
      intro e h1 h2 hp
      rcases Nat.lt_or_ge e (m + 1) with he | he
      · have hpm : p m = false := by
          rcases hb : p m with _ | _
          · rfl
          · exact absurd ((hp m (by omega)).mp hb).2 (by omega)
        rw [List.range_succ, List.filter_append]
        simp only [List.filter_cons, List.filter_nil, hpm, Bool.false_eq_true, if_false,
          List.append_nil]
        exact ih e h1 (by omega) fun i hi => hp i (by omega)
      · have he' : e = m + 1 := by omega
        subst he'
        rcases Nat.lt_or_ge m s with hs | hs
        · have hs' : s = m + 1 := by omega
          subst hs'
          rw [Nat.sub_self]
          refine List.filter_eq_nil_iff.mpr ?_
          intro a ha
          rw [List.mem_range] at ha
          intro hpa
          exact absurd ((hp a (by omega)).mp hpa).1 (by omega)
        · have hpm : p m = true := (hp m (by omega)).mpr ⟨hs, by omega⟩
          rw [List.range_succ, List.filter_append]
          simp only [List.filter_cons, List.filter_nil, hpm, if_true]
          rw [ih m hs (Nat.le_refl m) fun i hi =>
            ⟨fun h => ⟨((hp i (by omega)).mp h).1, hi⟩,
             fun h => (hp i (by omega)).mpr ⟨h.1, by omega⟩⟩]
          have h1' : m + 1 - s = (m - s) + 1 := by omega
          rw [h1', range'_concat_one]
          have h2' : s + (m - s) = m := by omega
          rw [h2']

/-- `SpMMSumCoo` at one output cell: the additive fold over the nonzeros
targeting the cell's row. -/
lemma SpMMSumCoo_cell (Op : OpT) (coo : COOMatrix) (u e : NDArray) (dim outNumel : Nat)
    (out0 : Nat → Int) (c k : Nat) (hk : k < dim) :
    SpMMSumCoo Op coo u e dim outNumel out0 (c * dim + k)
      = ((List.range coo.nnz).filter (fun i => decide (coo.col i = c))).foldl
          (fun a i => a + cooCandVal Op coo u e dim k i)
          (if c * dim + k < outNumel then 0 else out0 (c * dim + k)) := by
  exact scatter_proj dim coo.col (fun i a k' => a + cooCandVal Op coo u e dim k' i)
    c k hk coo.nnz _

/-- A flag-guarded update does not touch other cells. -/
lemma condUpdate_noteq {α : Type} (b : Bool) (f : Nat → α) (a : Nat) (v : α) (idx : Nat)
    (h : a ≠ idx) : (if b then Function.update f a v else f) idx = f idx := by
  cases b <;> simp [Function.update_noteq (Ne.symm h)]

/-- The value component of the `SpMMCmpCoo` fold evolves autonomously:
projecting it out leaves a value-only scatter fold. -/
lemma SpMMCmpCoo_fst (Op : OpT) (cmp : CmpT) (coo : COOMatrix) (u e : NDArray)
    (dim outNumel : Nat) (out0 : Nat → Int) (argu0 arge0 : Nat → Nat) :
    (SpMMCmpCoo Op cmp coo u e dim outNumel out0 argu0 arge0).1
      = (List.range coo.nnz).foldl
          (fun O i =>
            (List.range dim).foldl
              (fun O' k =>
                if cmp.Call (O' (coo.col i * dim + k)) (cooCandVal Op coo u e dim k i) then
                  Function.update O' (coo.col i * dim + k) (cooCandVal Op coo u e dim k i)
                else O')
              O)
          (fun idx => if idx < outNumel then cmp.zero else out0 idx) := by
  unfold SpMMCmpCoo
  refine foldl_fst _ _ ?_ (List.range coo.nnz) _
  intro st i
  refine foldl_fst _ _ ?_ (List.range dim) st
  intro st' k
  by_cases hC : cmp.Call (st'.1 (coo.col i * dim + k)) (cooCandVal Op coo u e dim k i) = true
  · rw [if_pos hC, if_pos hC]
  · rw [if_neg hC, if_neg hC]

/-- `SpMMCmpCoo` value output at one cell: the compare fold over the
nonzeros targeting the cell's row, starting from the initialized value. -/
lemma SpMMCmpCoo_cell (Op : OpT) (cmp : CmpT) (coo : COOMatrix) (u e : NDArray)
    (dim outNumel : Nat) (out0 : Nat → Int) (argu0 arge0 : Nat → Nat)
    (c k : Nat) (hk : k < dim) :
    (SpMMCmpCoo Op cmp coo u e dim outNumel out0 argu0 arge0).1 (c * dim + k)
      = ((List.range coo.nnz).filter (fun i => decide (coo.col i = c))).foldl
          (fun a i =>
            if cmp.Call a (cooCandVal Op coo u e dim k i) then cooCandVal Op coo u e dim k i
            else a)
          (if c * dim + k < outNumel then cmp.zero else out0 (c * dim + k)) := by
  rw [SpMMCmpCoo_fst]
  have hbody :
      (fun (O : Nat → Int) (i : Nat) =>
        (List.range dim).foldl
          (fun O' k' =>
            if cmp.Call (O' (coo.col i * dim + k')) (cooCandVal Op coo u e dim k' i) then
              Function.update O' (coo.col i * dim + k') (cooCandVal Op coo u e dim k' i)
            else O')
          O)
      = (fun (O : Nat → Int) (i : Nat) =>
        (List.range dim).foldl
          (fun O' k' =>
            Function.update O' (coo.col i * dim + k')
              (if cmp.Call (O' (coo.col i * dim + k')) (cooCandVal Op coo u e dim k' i) then
                cooCandVal Op coo u e dim k' i
               else O' (coo.col i * dim + k')))
          O) := by
    funext O i
    refine List.foldl_ext _ _ _ ?_
    intro O' k' _
    by_cases hC : cmp.Call (O' (coo.col i * dim + k')) (cooCandVal Op coo u e dim k' i) = true
    · rw [if_pos hC, if_pos hC]
    · rw [if_neg hC, if_neg hC, Function.update_eq_self]
  rw [hbody]
  exact scatter_proj dim coo.col
    (fun i a k' =>
      if cmp.Call a (cooCandVal Op coo u e dim k' i) then cooCandVal Op coo u e dim k' i else a)
    c k hk coo.nnz _

/-- Inner feature loop of `SpMMCmpCoo`: all three components are
untouched at a cell the loop does not target. -/
lemma cmpCooInner_frame (Op : OpT) (cmp : CmpT) (coo : COOMatrix) (u e : NDArray)
    (dim i idx : Nat) :
    ∀ (m : Nat), (∀ k', k' < m → coo.col i * dim + k' ≠ idx) →
      ∀ (st : (Nat → Int) × (Nat → Nat) × (Nat → Nat)),
      (((List.range m).foldl
        (fun st' k =>
          if cmp.Call (st'.1 (coo.col i * dim + k)) (cooCandVal Op coo u e dim k i) then
            (Function.update st'.1 (coo.col i * dim + k) (cooCandVal Op coo u e dim k i),
             if Op.use_lhs then Function.update st'.2.1 (coo.col i * dim + k) (coo.row i)
             else st'.2.1,
             if Op.use_rhs then Function.update st'.2.2 (coo.col i * dim + k) (cooEid coo i)
             else st'.2.2)
          else st') st).1 idx = st.1 idx
        ∧ ((List.range m).foldl
          (fun st' k =>
            if cmp.Call (st'.1 (coo.col i * dim + k)) (cooCandVal Op coo u e dim k i) then
              (Function.update st'.1 (coo.col i * dim + k) (cooCandVal Op coo u e dim k i),
               if Op.use_lhs then Function.update st'.2.1 (coo.col i * dim + k) (coo.row i)
               else st'.2.1,
               if Op.use_rhs then Function.update st'.2.2 (coo.col i * dim + k) (cooEid coo i)
               else st'.2.2)
            else st') st).2.1 idx = st.2.1 idx
        ∧ ((List.range m).foldl
          (fun st' k =>
            if cmp.Call (st'.1 (coo.col i * dim + k)) (cooCandVal Op coo u e dim k i) then
              (Function.update st'.1 (coo.col i * dim + k) (cooCandVal Op coo u e dim k i),
               if Op.use_lhs then Function.update st'.2.1 (coo.col i * dim + k) (coo.row i)
               else st'.2.1,
               if Op.use_rhs then Function.update st'.2.2 (coo.col i * dim + k) (cooEid coo i)
               else st'.2.2)
            else st') st).2.2 idx = st.2.2 idx) := by
  intro m
  induction m with
  | zero => intro _ st; exact ⟨rfl, rfl, rfl⟩
  | succ m ih =>
      intro h st
      rw [List.range_succ, List.foldl_append]
      simp only [List.foldl_cons, List.foldl_nil]
      obtain ⟨ih1, ih2, ih3⟩ := ih (fun k' hk' => h k' (by omega)) st
      have hne : coo.col i * dim + m ≠ idx := h m (by omega)
      by_cases hC : cmp.Call
          (((List.range m).foldl
            (fun st' k =>
              if cmp.Call (st'.1 (coo.col i * dim + k)) (cooCandVal Op coo u e dim k i) then
                (Function.update st'.1 (coo.col i * dim + k) (cooCandVal Op coo u e dim k i),
                 if Op.use_lhs then Function.update st'.2.1 (coo.col i * dim + k) (coo.row i)
                 else st'.2.1,
                 if Op.use_rhs then Function.update st'.2.2 (coo.col i * dim + k) (cooEid coo i)
                 else st'.2.2)
              else st') st).1 (coo.col i * dim + m))
          (cooCandVal Op coo u e dim m i) = true
      · rw [if_pos hC]
        exact ⟨(Function.update_noteq (Ne.symm hne) _ _).trans ih1,
               (condUpdate_noteq _ _ _ _ _ hne).trans ih2,
               (condUpdate_noteq _ _ _ _ _ hne).trans ih3⟩
      · rw [if_neg hC]
        exact ⟨ih1, ih2, ih3⟩

/-- `SpMMCmpCoo` frame: at a cell in a row no nonzero targets, the value
output is the initialization and the argument outputs are exactly the
caller-supplied contents. -/
lemma SpMMCmpCoo_frame (Op : OpT) (cmp : CmpT) (coo : COOMatrix) (u e : NDArray)
    (dim outNumel : Nat) (out0 : Nat → Int) (argu0 arge0 : Nat → Nat) (idx : Nat)
    (h : ∀ i, i < coo.nnz → ∀ k', k' < dim → coo.col i * dim + k' ≠ idx) :
    (SpMMCmpCoo Op cmp coo u e dim outNumel out0 argu0 arge0).1 idx
        = (if idx < outNumel then cmp.zero else out0 idx)
      ∧ (SpMMCmpCoo Op cmp coo u e dim outNumel out0 argu0 arge0).2.1 idx = argu0 idx
      ∧ (SpMMCmpCoo Op cmp coo u e dim outNumel out0 argu0 arge0).2.2 idx = arge0 idx := by
  unfold SpMMCmpCoo
  suffices hgen : ∀ (n : Nat), (∀ i, i < n → ∀ k', k' < dim → coo.col i * dim + k' ≠ idx) →
      ∀ (st : (Nat → Int) × (Nat → Nat) × (Nat → Nat)),
      (((List.range n).foldl
        (fun st i =>
          (List.range dim).foldl
            (fun st' k =>
              if cmp.Call (st'.1 (coo.col i * dim + k)) (cooCandVal Op coo u e dim k i) then
                (Function.update st'.1 (coo.col i * dim + k) (cooCandVal Op coo u e dim k i),
                 if Op.use_lhs then Function.update st'.2.1 (coo.col i * dim + k) (coo.row i)
                 else st'.2.1,
                 if Op.use_rhs then Function.update st'.2.2 (coo.col i * dim + k) (cooEid coo i)
                 else st'.2.2)
              else st')
            st)
        st).1 idx = st.1 idx
        ∧ ((List.range n).foldl
          (fun st i =>
            (List.range dim).foldl
              (fun st' k =>
                if cmp.Call (st'.1 (coo.col i * dim + k)) (cooCandVal Op coo u e dim k i) then
                  (Function.update st'.1 (coo.col i * dim + k) (cooCandVal Op coo u e dim k i),
                   if Op.use_lhs then Function.update st'.2.1 (coo.col i * dim + k) (coo.row i)
                   else st'.2.1,
                   if Op.use_rhs then Function.update st'.2.2 (coo.col i * dim + k) (cooEid coo i)
                   else st'.2.2)
                else st')
              st)
          st).2.1 idx = st.2.1 idx
        ∧ ((List.range n).foldl
          (fun st i =>
            (List.range dim).foldl
              (fun st' k =>
                if cmp.Call (st'.1 (coo.col i * dim + k)) (cooCandVal Op coo u e dim k i) then
                  (Function.update st'.1 (coo.col i * dim + k) (cooCandVal Op coo u e dim k i),
                   if Op.use_lhs then Function.update st'.2.1 (coo.col i * dim + k) (coo.row i)
                   else st'.2.1,
                   if Op.use_rhs then Function.update st'.2.2 (coo.col i * dim + k) (cooEid coo i)
                   else st'.2.2)
                else st')
              st)
          st).2.2 idx = st.2.2 idx) by
    exact hgen coo.nnz h _
  intro n
  induction n with
  | zero => intro _ st; exact ⟨rfl, rfl, rfl⟩
  | succ n ih =>
      intro hn st
      rw [List.range_succ, List.foldl_append]
      simp only [List.foldl_cons, List.foldl_nil]
      obtain ⟨ih1, ih2, ih3⟩ := ih (fun i hi => hn i (by omega)) st
      obtain ⟨f1, f2, f3⟩ := cmpCooInner_frame Op cmp coo u e dim n idx dim
        (hn n (by omega)) _
      exact ⟨f1.trans ih1, f2.trans ih2, f3.trans ih3⟩

/-- Peeling the last iteration off the compare-accumulation loop. -/
lemma cmpRowCell_succ (Op : OpT) (cmp : CmpT) (csr : CSRMatrix) (u e : NDArray)
    (dim k s n : Nat) :
    cmpRowCell Op cmp csr u e dim k s (n + 1)
      = if cmp.Call (cmpRowCell Op cmp csr u e dim k s n).1
            (candVal Op csr u e dim k (s + n)) then
          (candVal Op csr u e dim k (s + n),
           if Op.use_lhs then csr.indices (s + n) else (cmpRowCell Op cmp csr u e dim k s n).2.1,
           if Op.use_rhs then csrEid csr (s + n) else (cmpRowCell Op cmp csr u e dim k s n).2.2)
        else cmpRowCell Op cmp csr u e dim k s n := by
  unfold cmpRowCell
  rw [range'_concat_one, List.foldl_append]
  simp only [List.foldl_cons, List.foldl_nil]

/-- Invariant of the compare-accumulation loop for a max-like operator
(replace exactly when the accumulator is strictly below the candidate):
the accumulator stays at or above the sentinel and dominates every
candidate seen; either nothing ever replaced the sentinel and the
arguments are still `0`, or the accumulator is strictly above the
sentinel and the arguments record the first candidate attaining it. -/
lemma cmpRowCell_max (Op : OpT) (cmp : CmpT)
    (hc : ∀ a b, cmp.Call a b = true ↔ a < b)
    (csr : CSRMatrix) (u e : NDArray) (dim k s : Nat) :
    ∀ (n : Nat),
      cmp.zero ≤ (cmpRowCell Op cmp csr u e dim k s n).1
      ∧ (∀ j, s ≤ j → j < s + n →
          candVal Op csr u e dim k j ≤ (cmpRowCell Op cmp csr u e dim k s n).1)
      ∧ (((cmpRowCell Op cmp csr u e dim k s n).1 = cmp.zero
            ∧ (cmpRowCell Op cmp csr u e dim k s n).2.1 = 0
            ∧ (cmpRowCell Op cmp csr u e dim k s n).2.2 = 0)
        ∨ (cmp.zero < (cmpRowCell Op cmp csr u e dim k s n).1
            ∧ ∃ j, s ≤ j ∧ j < s + n
                ∧ candVal Op csr u e dim k j = (cmpRowCell Op cmp csr u e dim k s n).1
                ∧ (∀ j', s ≤ j' → j' < j →
                    candVal Op csr u e dim k j' < (cmpRowCell Op cmp csr u e dim k s n).1)
                ∧ (cmpRowCell Op cmp csr u e dim k s n).2.1
                    = (if Op.use_lhs then csr.indices j else 0)
                ∧ (cmpRowCell Op cmp csr u e dim k s n).2.2
                    = (if Op.use_rhs then csrEid csr j else 0))) := by
  intro n
  induction n with
  | zero =>
      refine ⟨Int.le_refl _, ?_, Or.inl ⟨rfl, rfl, rfl⟩⟩
      intro j h1 h2
      omega
  | succ n ih =>
      obtain ⟨ih0, ihub, ihd⟩ := ih
      rw [cmpRowCell_succ]
      by_cases hC : cmp.Call (cmpRowCell Op cmp csr u e dim k s n).1
          (candVal Op csr u e dim k (s + n)) = true
      · rw [if_pos hC]
        have hlt : (cmpRowCell Op cmp csr u e dim k s n).1 < candVal Op csr u e dim k (s + n) :=
          (hc _ _).mp hC
        have hax0 : Op.use_lhs = false → (cmpRowCell Op cmp csr u e dim k s n).2.1 = 0 := by
          intro hf
          rcases ihd with ⟨_, h2, _⟩ | ⟨_, j, _, _, _, _, h2, _⟩
          · exact h2
          · rw [h2, hf]
            rfl
        have haw0 : Op.use_rhs = false → (cmpRowCell Op cmp csr u e dim k s n).2.2 = 0 := by
          intro hf
          rcases ihd with ⟨_, _, h3⟩ | ⟨_, j, _, _, _, _, _, h3⟩
          · exact h3
          · rw [h3, hf]
            rfl
        refine ⟨le_trans ih0 (le_of_lt hlt), ?_, Or.inr ⟨lt_of_le_of_lt ih0 hlt,
          s + n, by omega, by omega, rfl, ?_, ?_, ?_⟩⟩
        · intro j h1 h2
          rcases Nat.lt_or_ge j (s + n) with hj | hj
          · exact le_of_lt (lt_of_le_of_lt (ihub j h1 hj) hlt)
          · have hj' : j = s + n := by omega
            rw [hj']
        · intro j' h1 h2
          exact lt_of_le_of_lt (ihub j' h1 h2) hlt
        · rcases hL : Op.use_lhs with _ | _
          · simp only [Bool.false_eq_true, if_false]
            exact hax0 hL
          · simp only [if_true]
        · rcases hR : Op.use_rhs with _ | _
          · simp only [Bool.false_eq_true, if_false]
            exact haw0 hR
          · simp only [if_true]
      · rw [if_neg hC]
        have hge : candVal Op csr u e dim k (s + n) ≤ (cmpRowCell Op cmp csr u e dim k s n).1 := by
          by_contra hlt'
          exact hC ((hc _ _).mpr (by omega))
        refine ⟨ih0, ?_, ?_⟩
        · intro j h1 h2
          rcases Nat.lt_or_ge j (s + n) with hj | hj
          · exact ihub j h1 hj
          · have hj' : j = s + n := by omega
            rw [hj']
            exact hge
        · rcases ihd with hl | ⟨hpos, j, hj1, hj2, hj3, hj4, hj5, hj6⟩
          · exact Or.inl hl
          · exact Or.inr ⟨hpos, j, hj1, by omega, hj3, hj4, hj5, hj6⟩

/-- The mirror invariant for a min-like operator (replace exactly when
the accumulator is strictly above the candidate). -/
lemma cmpRowCell_min (Op : OpT) (cmp : CmpT)
    (hc : ∀ a b, cmp.Call a b = true ↔ b < a)
    (csr : CSRMatrix) (u e : NDArray) (dim k s : Nat) :
    ∀ (n : Nat),
      (cmpRowCell Op cmp csr u e dim k s n).1 ≤ cmp.zero
      ∧ (∀ j, s ≤ j → j < s + n →
          (cmpRowCell Op cmp csr u e dim k s n).1 ≤ candVal Op csr u e dim k j)
      ∧ (((cmpRowCell Op cmp csr u e dim k s n).1 = cmp.zero
            ∧ (cmpRowCell Op cmp csr u e dim k s n).2.1 = 0
            ∧ (cmpRowCell Op cmp csr u e dim k s n).2.2 = 0)
        ∨ ((cmpRowCell Op cmp csr u e dim k s n).1 < cmp.zero
            ∧ ∃ j, s ≤ j ∧ j < s + n
                ∧ candVal Op csr u e dim k j = (cmpRowCell Op cmp csr u e dim k s n).1
                ∧ (∀ j', s ≤ j' → j' < j →
                    (cmpRowCell Op cmp csr u e dim k s n).1 < candVal Op csr u e dim k j')
                ∧ (cmpRowCell Op cmp csr u e dim k s n).2.1
                    = (if Op.use_lhs then csr.indices j else 0)
                ∧ (cmpRowCell Op cmp csr u e dim k s n).2.2
                    = (if Op.use_rhs then csrEid csr j else 0))) := by
  intro n
  induction n with
  | zero =>
      refine ⟨Int.le_refl _, ?_, Or.inl ⟨rfl, rfl, rfl⟩⟩
      intro j h1 h2
      omega
  | succ n ih =>
      obtain ⟨ih0, ihlb, ihd⟩ := ih
      rw [cmpRowCell_succ]
      by_cases hC : cmp.Call (cmpRowCell Op cmp csr u e dim k s n).1
          (candVal Op csr u e dim k (s + n)) = true
      · rw [if_pos hC]
        have hlt : candVal Op csr u e dim k (s + n) < (cmpRowCell Op cmp csr u e dim k s n).1 :=
          (hc _ _).mp hC
        have hax0 : Op.use_lhs = false → (cmpRowCell Op cmp csr u e dim k s n).2.1 = 0 := by
          intro hf
          rcases ihd with ⟨_, h2, _⟩ | ⟨_, j, _, _, _, _, h2, _⟩
          · exact h2
          · rw [h2, hf]
            rfl
        have haw0 : Op.use_rhs = false → (cmpRowCell Op cmp csr u e dim k s n).2.2 = 0 := by
          intro hf
          rcases ihd with ⟨_, _, h3⟩ | ⟨_, j, _, _, _, _, _, h3⟩
          · exact h3
          · rw [h3, hf]
            rfl
        refine ⟨le_trans (le_of_lt hlt) ih0, ?_, Or.inr ⟨lt_of_lt_of_le hlt ih0,
          s + n, by omega, by omega, rfl, ?_, ?_, ?_⟩⟩
        · intro j h1 h2
          rcases Nat.lt_or_ge j (s + n) with hj | hj
          · exact le_of_lt (lt_of_lt_of_le hlt (ihlb j h1 hj))
          · have hj' : j = s + n := by omega
            rw [hj']
        · intro j' h1 h2
          exact lt_of_lt_of_le hlt (ihlb j' h1 h2)
        · rcases hL : Op.use_lhs with _ | _
          · simp only [Bool.false_eq_true, if_false]
            exact hax0 hL
          · simp only [if_true]
        · rcases hR : Op.use_rhs with _ | _
          · simp only [Bool.false_eq_true, if_false]
            exact haw0 hR
          · simp only [if_true]
      · rw [if_neg hC]
        have hge : (cmpRowCell Op cmp csr u e dim k s n).1 ≤ candVal Op csr u e dim k (s + n) := by
          by_contra hlt'
          exact hC ((hc _ _).mpr (by omega))
        refine ⟨ih0, ?_, ?_⟩
        · intro j h1 h2
          rcases Nat.lt_or_ge j (s + n) with hj | hj
          · exact ihlb j h1 hj
          · have hj' : j = s + n := by omega
            rw [hj']
            exact hge
        · rcases ihd with hl | ⟨hpos, j, hj1, hj2, hj3, hj4, hj5, hj6⟩
          · exact Or.inl hl
          · exact Or.inr ⟨hpos, j, hj1, by omega, hj3, hj4, hj5, hj6⟩

/-- Unfolding `SpMMCmpCsr` at a written cell. -/
lemma SpMMCmpCsr_cell (Op : OpT) (cmp : CmpT) (csr : CSRMatrix) (u e : NDArray) (dim : Nat)
    (out0 : Nat → Int) (argu0 arge0 : Nat → Nat) (r k : Nat)
    (hr : r < csr.num_rows) (hk : k < dim) :
    (SpMMCmpCsr Op cmp csr u e dim out0 argu0 arge0).1 (r * dim + k)
        = (cmpRowCell Op cmp csr u e dim k (csr.indptr r)
            (csr.indptr (r + 1) - csr.indptr r)).1
      ∧ (Op.use_lhs = true →
          (SpMMCmpCsr Op cmp csr u e dim out0 argu0 arge0).2.1 (r * dim + k)
            = (cmpRowCell Op cmp csr u e dim k (csr.indptr r)
                (csr.indptr (r + 1) - csr.indptr r)).2.1)
      ∧ (Op.use_rhs = true →
          (SpMMCmpCsr Op cmp csr u e dim out0 argu0 arge0).2.2 (r * dim + k)
            = (cmpRowCell Op cmp csr u e dim k (csr.indptr r)
                (csr.indptr (r + 1) - csr.indptr r)).2.2) := by
  have hd := cell_decomp r k dim hk
  have hlt := cell_lt r k dim csr.num_rows hr hk
  refine ⟨?_, ?_, ?_⟩
  · simp only [SpMMCmpCsr]
    rw [if_pos hlt, hd.1, hd.2]
  · intro hL
    simp only [SpMMCmpCsr]
    rw [if_pos ⟨hL, hlt⟩, hd.1, hd.2]
  · intro hR
    simp only [SpMMCmpCsr]
    rw [if_pos ⟨hR, hlt⟩, hd.1, hd.2]

/-- Claim C4 (amended): `SpMMCmpCsr` with `Max` (resp. `Min`) starts each
accumulator at the element type's lowest (resp. highest) value and
replaces only on strictly greater (resp. smaller) candidates; the stored
value is the extremum over the row's candidates; empty rows output the
identity with arguments `0`; whenever the stored value strictly beats
the identity the arguments record the first candidate attaining it, and
when every candidate equals the identity the arguments stay `0`. -/
theorem spmm_cmp_csr_minmax (Op : OpT) (csr : CSRMatrix) (u e : NDArray) (dim : Nat)
    (out0 : Nat → Int) (argu0 arge0 : Nat → Nat) (r k : Nat)
    (hmono : ∀ a, a < csr.num_rows → csr.indptr a ≤ csr.indptr (a + 1))
    (hr : r < csr.num_rows) (hk : k < dim)
    (hrange : ∀ j, j < csr.indptr (r + 1) → csr.indptr r ≤ j →
        op.int32Lowest ≤ candVal Op csr u e dim k j
          ∧ candVal Op csr u e dim k j ≤ op.int32Max) :
    CmpCsrMaxSpec Op csr u e dim out0 argu0 arge0 r k
      ∧ CmpCsrMinSpec Op csr u e dim out0 argu0 arge0 r k := by
  have hse : csr.indptr r ≤ csr.indptr (r + 1) := hmono r hr
  have hsum : csr.indptr r + (csr.indptr (r + 1) - csr.indptr r) = csr.indptr (r + 1) := by
    omega
  constructor
  · -- Max half
    have hcell := SpMMCmpCsr_cell Op op.Max csr u e dim out0 argu0 arge0 r k hr hk
    have hcM : ∀ a b : Int, op.Max.Call a b = true ↔ a < b := by
      intro a b
      simp [op.Max]
    obtain ⟨h0, hub, hd⟩ := cmpRowCell_max Op op.Max hcM csr u e dim k (csr.indptr r)
      (csr.indptr (r + 1) - csr.indptr r)
    rw [hsum] at hub hd
    refine ⟨rfl, hcM, ?_, ?_, ?_, ?_, ?_⟩
    · intro j h1 h2
      rw [hcell.1]
      exact hub j h1 h2
    · intro hne
      rw [hcell.1]
      rcases hd with ⟨hz, _, _⟩ | ⟨_, j, hj1, hj2, hj3, _⟩
      · refine ⟨csr.indptr r, Nat.le_refl _, hne, ?_⟩
        refine le_antisymm (hub _ (Nat.le_refl _) hne) ?_
        rw [hz]
        exact (hrange _ hne (Nat.le_refl _)).1
      · exact ⟨j, hj1, hj2, hj3⟩
    · intro hle
      have hn0 : csr.indptr (r + 1) - csr.indptr r = 0 := by omega
      refine ⟨?_, ?_, ?_⟩
      · rw [hcell.1, hn0]
        rfl
      · intro hL
        rw [hcell.2.1 hL, hn0]
        rfl
      · intro hR
        rw [hcell.2.2 hR, hn0]
        rfl
    · rw [hcell.1]
      intro hpos
      rcases hd with ⟨hz, _, _⟩ | ⟨_, j, hj1, hj2, hj3, hj4, hj5, hj6⟩
      · rw [hz] at hpos
        exact absurd hpos (lt_irrefl _)
      · refine ⟨j, hj1, hj2, hj3, hj4, ?_, ?_⟩
        · intro hL
          rw [hcell.2.1 hL, hj5, if_pos hL]
        · intro hR
          rw [hcell.2.2 hR, hj6, if_pos hR]
    · rw [hcell.1]
      intro hz0
      rcases hd with ⟨_, h2, h3⟩ | ⟨hpos, _⟩
      · constructor
        · intro hL
          rw [hcell.2.1 hL, h2]
        · intro hR
          rw [hcell.2.2 hR, h3]
      · rw [hz0] at hpos
        exact absurd hpos (lt_irrefl _)
  · -- Min half
    have hcell := SpMMCmpCsr_cell Op op.Min csr u e dim out0 argu0 arge0 r k hr hk
    have hcm : ∀ a b : Int, op.Min.Call a b = true ↔ b < a := by
      intro a b
      simp [op.Min]
    obtain ⟨h0, hlb, hd⟩ := cmpRowCell_min Op op.Min hcm csr u e dim k (csr.indptr r)
      (csr.indptr (r + 1) - csr.indptr r)
    rw [hsum] at hlb hd
    refine ⟨rfl, hcm, ?_, ?_, ?_, ?_, ?_⟩
    · intro j h1 h2
      rw [hcell.1]
      exact hlb j h1 h2
    · intro hne
      rw [hcell.1]
      rcases hd with ⟨hz, _, _⟩ | ⟨_, j, hj1, hj2, hj3, _⟩
      · refine ⟨csr.indptr r, Nat.le_refl _, hne, ?_⟩
        refine le_antisymm ?_ (hlb _ (Nat.le_refl _) hne)
        rw [hz]
        exact (hrange _ hne (Nat.le_refl _)).2
      · exact ⟨j, hj1, hj2, hj3⟩
    · intro hle
      have hn0 : csr.indptr (r + 1) - csr.indptr r = 0 := by omega
      refine ⟨?_, ?_, ?_⟩
      · rw [hcell.1, hn0]
        rfl
      · intro hL
        rw [hcell.2.1 hL, hn0]
        rfl
      · intro hR
        rw [hcell.2.2 hR, hn0]
        rfl
    · rw [hcell.1]
      intro hpos
      rcases hd with ⟨hz, _, _⟩ | ⟨_, j, hj1, hj2, hj3, hj4, hj5, hj6⟩
      · rw [hz] at hpos
        exact absurd hpos (lt_irrefl _)
      · refine ⟨j, hj1, hj2, hj3, hj4, ?_, ?_⟩
        · intro hL
          rw [hcell.2.1 hL, hj5, if_pos hL]
        · intro hR
          rw [hcell.2.2 hR, hj6, if_pos hR]
    · rw [hcell.1]
      intro hz0
      rcases hd with ⟨_, h2, h3⟩ | ⟨hpos, _⟩
      · constructor
        · intro hL
          rw [hcell.2.1 hL, h2]
        · intro hR
          rw [hcell.2.2 hR, h3]
      · rw [hz0] at hpos
        exact absurd hpos (lt_irrefl _)

/-- Witness for C4 at a concrete 1-row, 2-nonzero CSR with `CopyLhs`. -/
theorem spmm_cmp_csr_minmax_witness :
    CmpCsrMaxSpec op.CopyLhs ⟨1, 2, 2, fun r => [0, 2].getD r 0, fun j => [1, 0].getD j 0, none⟩
        ⟨[2, 1], fun i => [5, 3].getD i 0⟩ ⟨[2, 1], fun _ => 0⟩ 1 (fun _ => 0) (fun _ => 0)
        (fun _ => 0) 0 0
      ∧ CmpCsrMinSpec op.CopyLhs
        ⟨1, 2, 2, fun r => [0, 2].getD r 0, fun j => [1, 0].getD j 0, none⟩
        ⟨[2, 1], fun i => [5, 3].getD i 0⟩ ⟨[2, 1], fun _ => 0⟩ 1 (fun _ => 0) (fun _ => 0)
        (fun _ => 0) 0 0 :=
  spmm_cmp_csr_minmax op.CopyLhs
    ⟨1, 2, 2, fun r => [0, 2].getD r 0, fun j => [1, 0].getD j 0, none⟩
    ⟨[2, 1], fun i => [5, 3].getD i 0⟩ ⟨[2, 1], fun _ => 0⟩ 1 (fun _ => 0) (fun _ => 0)
    (fun _ => 0) 0 0 (by decide) (by decide) (by decide) (by decide)

/-- Claim C4 counterexample (to the claim as stated): a single-neighbor
row whose only candidate equals the identity `int32` lowest value.  The
stored value is attained by the first (and only) candidate, whose
neighbor id is `1`, yet the recorded left argument is `0`: the argument
entries do NOT identify the first candidate attaining the stored value. -/
theorem spmm_cmp_csr_argmax_counterexample :
    (SpMMCmpCsr op.CopyLhs op.Max ⟨1, 2, 1, fun r => min r 1, fun _ => 1, none⟩
        ⟨[2, 1], fun _ => op.int32Lowest⟩ ⟨[1, 1], fun _ => 0⟩ 1
        (fun _ => 0) (fun _ => 0) (fun _ => 0)).1 0 = op.int32Lowest
    ∧ candVal op.CopyLhs ⟨1, 2, 1, fun r => min r 1, fun _ => 1, none⟩
        ⟨[2, 1], fun _ => op.int32Lowest⟩ ⟨[1, 1], fun _ => 0⟩ 1 0 0
        = (SpMMCmpCsr op.CopyLhs op.Max ⟨1, 2, 1, fun r => min r 1, fun _ => 1, none⟩
            ⟨[2, 1], fun _ => op.int32Lowest⟩ ⟨[1, 1], fun _ => 0⟩ 1
            (fun _ => 0) (fun _ => 0) (fun _ => 0)).1 0
    ∧ (⟨1, 2, 1, fun r => min r 1, fun _ => 1, none⟩ : CSRMatrix).indptr 0 = 0
    ∧ (⟨1, 2, 1, fun r => min r 1, fun _ => 1, none⟩ : CSRMatrix).indptr 1 = 1
    ∧ (⟨1, 2, 1, fun r => min r 1, fun _ => 1, none⟩ : CSRMatrix).indices 0 = 1
    ∧ op.CopyLhs.use_lhs = true
    ∧ (SpMMCmpCsr op.CopyLhs op.Max ⟨1, 2, 1, fun r => min r 1, fun _ => 1, none⟩
        ⟨[2, 1], fun _ => op.int32Lowest⟩ ⟨[1, 1], fun _ => 0⟩ 1
        (fun _ => 0) (fun _ => 0) (fun _ => 0)).2.1 0 = 0
    ∧ (0 : Nat) ≠ 1 := by
  decide

/-- The value component of the CSR compare-accumulation loop evolves
autonomously. -/
lemma cmpRowCell_fst (Op : OpT) (cmp : CmpT) (csr : CSRMatrix) (u e : NDArray)
    (dim k s n : Nat) :
    (cmpRowCell Op cmp csr u e dim k s n).1
      = (List.range' s n).foldl
          (fun a j =>
            if cmp.Call a (candVal Op csr u e dim k j) then candVal Op csr u e dim k j else a)
          cmp.zero := by
  unfold cmpRowCell
  refine foldl_fst _ _ ?_ _ _
  intro st j
  by_cases hC : cmp.Call st.1 (candVal Op csr u e dim k j) = true
  · rw [if_pos hC, if_pos hC]
  · rw [if_neg hC, if_neg hC]

/-- Claim C3: a logical sparse matrix presented as a CSR matrix and as
the corresponding COO matrix under the incoming-edges convention
(`col` = aggregation target, `row` = neighbor, matching resolved edge
ids), run through the same value operator, gives equal sum outputs and
equal compare value outputs under the exact sequential semantics. -/
theorem spmm_csr_coo_equiv (Op : OpT) (cmp : CmpT) (csr : CSRMatrix) (coo : COOMatrix)
    (u e : NDArray) (dim : Nat) (out0 out0' : Nat → Int)
    (argu0 arge0 argu0' arge0' : Nat → Nat) (r k : Nat)
    (hmono : ∀ a, a < csr.num_rows → csr.indptr a ≤ csr.indptr (a + 1))
    (hnnz : csr.indptr csr.num_rows = csr.nnz)
    (hN : coo.nnz = csr.nnz)
    (hcol : ∀ i, i < coo.nnz → coo.col i < csr.num_rows
        ∧ csr.indptr (coo.col i) ≤ i ∧ i < csr.indptr (coo.col i + 1))
    (hrow : ∀ i, i < coo.nnz → coo.row i = csr.indices i)
    (heid : ∀ i, i < coo.nnz → cooEid coo i = csrEid csr i)
    (hr : r < csr.num_rows) (hk : k < dim) :
    CsrCooEquivSpec Op cmp csr coo u e dim out0 out0' argu0 arge0 argu0' arge0' r k := by
  have hglob := indptr_mono hmono
  have hse : csr.indptr r ≤ csr.indptr (r + 1) := hmono r hr
  have heN : csr.indptr (r + 1) ≤ coo.nnz := by
    rw [hN, ← hnnz]
    exact hglob (r + 1) csr.num_rows (by omega) (Nat.le_refl _)
  have hfilter : (List.range coo.nnz).filter (fun i => decide (coo.col i = r))
      = List.range' (csr.indptr r) (csr.indptr (r + 1) - csr.indptr r) := by
    apply filter_range_eq_range' _ (csr.indptr r) coo.nnz (csr.indptr (r + 1)) hse heN
    intro i hi
    constructor
    · intro hp
      have hc := of_decide_eq_true hp
      obtain ⟨h1, h2, h3⟩ := hcol i hi
      rw [hc] at h2 h3
      exact ⟨h2, h3⟩
    · rintro ⟨h1, h2⟩
      apply decide_eq_true
      obtain ⟨hc1, hc2, hc3⟩ := hcol i hi
      by_contra hne
      rcases Nat.lt_or_ge (coo.col i) r with hlt | hge
      · have := hglob (coo.col i + 1) r (by omega) (by omega)
        omega
      · have := hglob (r + 1) (coo.col i) (by omega) (by omega)
        omega
  have hmem : ∀ j ∈ List.range' (csr.indptr r) (csr.indptr (r + 1) - csr.indptr r),
      j < coo.nnz := by
    intro j hj
    have := List.mem_range'_1.mp hj
    omega
  constructor
  · rw [SpMMSumCsr_cell Op csr u e dim out0 r k hr hk,
      SpMMSumCoo_cell Op coo u e dim (csr.num_rows * dim) out0' r k hk, hfilter,
      if_pos (cell_lt r k dim csr.num_rows hr hk)]
    unfold sumRowCell
    refine List.foldl_ext _ _ _ ?_
    intro a j hj
    have hjn := hmem j hj
    unfold candVal cooCandVal
    rw [hrow j hjn, heid j hjn]
  · rw [(SpMMCmpCsr_cell Op cmp csr u e dim out0 argu0 arge0 r k hr hk).1,
      cmpRowCell_fst,
      SpMMCmpCoo_cell Op cmp coo u e dim (csr.num_rows * dim) out0' argu0' arge0' r k hk,
      hfilter, if_pos (cell_lt r k dim csr.num_rows hr hk)]
    refine List.foldl_ext _ _ _ ?_
    intro a j hj
    have hjn := hmem j hj
    unfold candVal cooCandVal
    rw [hrow j hjn, heid j hjn]

/-- Witness for C3: a 2-row, 3-nonzero CSR and its COO presentation. -/
theorem spmm_csr_coo_equiv_witness :
    CsrCooEquivSpec op.Add op.Max
      ⟨2, 2, 3, fun r => [0, 2, 3].getD r 0, fun j => [1, 0, 1].getD j 0, none⟩
      ⟨2, 2, 3, fun i => [1, 0, 1].getD i 0, fun i => [0, 0, 1].getD i 0, none⟩
      ⟨[2, 1], fun i => [10, 20].getD i 0⟩ ⟨[3, 1], fun i => [1, 2, 3].getD i 0⟩
      1 (fun _ => 7) (fun _ => 9) (fun _ => 5) (fun _ => 5) (fun _ => 6) (fun _ => 6) 1 0 :=
  spmm_csr_coo_equiv op.Add op.Max
    ⟨2, 2, 3, fun r => [0, 2, 3].getD r 0, fun j => [1, 0, 1].getD j 0, none⟩
    ⟨2, 2, 3, fun i => [1, 0, 1].getD i 0, fun i => [0, 0, 1].getD i 0, none⟩
    ⟨[2, 1], fun i => [10, 20].getD i 0⟩ ⟨[3, 1], fun i => [1, 2, 3].getD i 0⟩
    1 (fun _ => 7) (fun _ => 9) (fun _ => 5) (fun _ => 5) (fun _ => 6) (fun _ => 6) 1 0
    (by decide) (by decide) (by decide) (by decide) (by decide) (by decide) (by decide)
    (by decide)

/-- Claim C10: `SpMMCmpCoo` initializes only the value tensor to the
identity before the scatter phase and writes the argument tensors only at
cells some incident nonzero replaces, so a column with no incident
nonzero keeps the caller-supplied argument contents (value = identity),
whereas `SpMMCmpCsr` actively writes value = identity and argument `0`
for an empty row. -/
theorem spmm_cmp_coo_frame (Op : OpT) (cmp : CmpT) (coo : COOMatrix) (csr : CSRMatrix)
    (u e : NDArray) (dim outNumel : Nat) (out0 out0' : Nat → Int)
    (argu0 arge0 argu0' arge0' : Nat → Nat) (c r k : Nat)
    (hk : k < dim)
    (hempty : ∀ i, i < coo.nnz → coo.col i ≠ c)
    (hr : r < csr.num_rows)
    (hrow_empty : csr.indptr (r + 1) ≤ csr.indptr r) :
    CmpCooFrameSpec Op cmp coo u e dim outNumel out0 argu0 arge0 c k
      ∧ CmpCsrEmptyRowSpec Op cmp csr u e dim out0' argu0' arge0' r k := by
  constructor
  · have hfr := SpMMCmpCoo_frame Op cmp coo u e dim outNumel out0 argu0 arge0 (c * dim + k)
      (fun i hi k' hk' he =>
        hempty i hi ((cell_eq_iff (coo.col i) c k' k dim hk' hk).mp he).1)
    refine ⟨hfr.2.1, hfr.2.2, ?_⟩
    intro hin
    rw [hfr.1, if_pos hin]
  · have hcell := SpMMCmpCsr_cell Op cmp csr u e dim out0' argu0' arge0' r k hr hk
    have hn0 : csr.indptr (r + 1) - csr.indptr r = 0 := by omega
    refine ⟨?_, ?_, ?_⟩
    · rw [hcell.1, hn0]
      rfl
    · intro hL
      rw [hcell.2.1 hL, hn0]
      rfl
    · intro hR
      rw [hcell.2.2 hR, hn0]
      rfl

/-- Witness for C10: a 1-nonzero COO targeting column 0 (column 1 is
untouched) and a CSR whose row 0 is empty. -/
theorem spmm_cmp_coo_frame_witness :
    CmpCooFrameSpec op.CopyLhs op.Max ⟨2, 2, 1, fun _ => 1, fun _ => 0, none⟩
        ⟨[2, 1], fun i => [10, 20].getD i 0⟩ ⟨[1, 1], fun _ => 0⟩ 1 2
        (fun _ => 7) (fun _ => 5) (fun _ => 6) 1 0
      ∧ CmpCsrEmptyRowSpec op.CopyLhs op.Max ⟨1, 2, 0, fun _ => 0, fun _ => 0, none⟩
        ⟨[2, 1], fun i => [10, 20].getD i 0⟩ ⟨[1, 1], fun _ => 0⟩ 1
        (fun _ => 7) (fun _ => 5) (fun _ => 6) 0 0 :=
  spmm_cmp_coo_frame op.CopyLhs op.Max ⟨2, 2, 1, fun _ => 1, fun _ => 0, none⟩
    ⟨1, 2, 0, fun _ => 0, fun _ => 0, none⟩
    ⟨[2, 1], fun i => [10, 20].getD i 0⟩ ⟨[1, 1], fun _ => 0⟩ 1 2
    (fun _ => 7) (fun _ => 7) (fun _ => 5) (fun _ => 6) (fun _ => 5) (fun _ => 6) 1 0 0
    (by decide) (by decide) (by decide) (by decide)

/-- Claim C7: both broadcast-aware SpMM-over-CSR entry points immediately
raise the fatal error for every input and never produce an output or
argument tensor. -/
theorem spmm_bcast_csr_fatal (info : BcastInfo) (csr : CSRMatrix) (u e : NDArray)
    (out0 : Nat → Int) (argu0 arge0 : Nat → Nat) :
    SpMMBcastSumCsr info csr u e out0 = Except.error ("not implemented")
      ∧ SpMMBcastCmpCsr info csr u e out0 argu0 arge0 = Except.error ("not implemented") :=
  ⟨rfl, rfl⟩

/-- Claim C8: the operator-name dispatch maps exactly add/mul/copy_u/
copy_e to Add/Mul/CopyLhs/CopyRhs and raises the fatal error on every
other name without producing an operator. -/
theorem switch_op_dispatch :
    SWITCH_OP ("add") = Except.ok op.Add
    ∧ SWITCH_OP ("mul") = Except.ok op.Mul
    ∧ SWITCH_OP ("copy_u") = Except.ok op.CopyLhs
    ∧ SWITCH_OP ("copy_e") = Except.ok op.CopyRhs
    ∧ (∀ s, s ≠ "add" → s ≠ "mul" → s ≠ "copy_u" → s ≠ "copy_e" →
        SWITCH_OP s = Except.error ("Unsupported SpMM binary operator: " ++ s)) := by
  refine ⟨rfl, rfl, rfl, rfl, ?_⟩
  intro s h1 h2 h3 h4
  unfold SWITCH_OP
  rw [if_neg h1, if_neg h2, if_neg h3, if_neg h4]

/-- Witness for C8 at the concrete unknown name div. -/
theorem switch_op_dispatch_witness :
    ("div" : String) ≠ "add"
      ∧ SWITCH_OP ("div") = Except.error ("Unsupported SpMM binary operator: " ++ "div") :=
  ⟨by decide, switch_op_dispatch.2.2.2.2 "div" (by decide) (by decide) (by decide) (by decide)⟩

/-- Claim C2 (refuted, code bug): `SDDMMCsrKernel` invokes
`BinarySearchSrc(indptr, N, eid)` with `N = num_rows`, not the length
`num_rows + 1` of `indptr`.  For `indptr = [0, 2, 4]` (2 rows) and edge
position `eid = 3`, the row containing position 3 is row 1
(`indptr[1] = 2 ≤ 3 < 4 = indptr[2]`), but the search as invoked returns
row 0; invoking it with `num_rows + 1 = 3` returns the correct row 1. -/
theorem binary_search_src_bug :
    BinarySearchSrc (fun r => [0, 2, 4].getD r 0) 2 3 = 0
      ∧ [0, 2, 4].getD 1 0 ≤ 3 ∧ 3 < [0, 2, 4].getD 2 0
      ∧ BinarySearchSrc (fun r => [0, 2, 4].getD r 0) 2 3 ≠ 1
      ∧ BinarySearchSrc (fun r => [0, 2, 4].getD r 0) 3 3 = 1 := by
  decide

/-- The conditional-accumulate loop of `UnravelRavel` computes the spec's
uniform `min`-formula when every operand extent is the output extent or 1. -/
lemma ravel_fold_eq (idx : Nat) (out_shape out_stride sh st : Nat → Nat) :
    ∀ (ndim : Nat), (∀ d, d < ndim → 0 < out_shape d ∧ (sh d = out_shape d ∨ sh d = 1)) →
      (List.range ndim).foldl
        (fun acc d =>
          if idx / out_stride d % out_shape d < sh d then
            acc + idx / out_stride d % out_shape d * st d
          else acc) 0
      = ravelFormula idx ndim out_shape out_stride sh st := by
  intro ndim
  induction ndim with
  | zero =>
      intro _
      simp [ravelFormula]
  | succ n ih =>
      intro h
      rw [List.range_succ, List.foldl_append]
      simp only [List.foldl_cons, List.foldl_nil]
      unfold ravelFormula
      rw [Finset.sum_range_succ]
      have hfold := ih fun d hd => h d (by omega)
      unfold ravelFormula at hfold
      rw [hfold]
      obtain ⟨hpos, hsh⟩ := h n (by omega)
      have hilt : idx / out_stride n % out_shape n < out_shape n := Nat.mod_lt _ hpos
      rcases hsh with hs | hs
      · rw [if_pos (by omega)]
        have hmin : min (idx / out_stride n % out_shape n) (sh n - 1)
            = idx / out_stride n % out_shape n := by omega
        rw [hmin]
      · rcases Nat.lt_or_ge (idx / out_stride n % out_shape n) 1 with h0 | h0
        · rw [if_pos (by omega)]
          have hi0 : idx / out_stride n % out_shape n = 0 := by omega
          rw [hi0]
          simp
        · rw [if_neg (by omega)]
          have hmin : min (idx / out_stride n % out_shape n) (sh n - 1) = 0 := by omega
          rw [hmin]
          simp

/-- Claim C5 (amended): under the claim's shape hypotheses, the operand
on the branch NOT taken receives the `min`-formula index, while the
operand on the taken branch receives exactly `idx` (which need not equal
its `min`-formula index when it is broadcast — see the counterexample). -/
theorem unravel_ravel_indices (idx ndim : Nat)
    (out_shape out_stride lhs_shape lhs_stride rhs_shape rhs_stride : Nat → Nat)
    (hsh : ∀ d, d < ndim → 0 < out_shape d
        ∧ (lhs_shape d = out_shape d ∨ lhs_shape d = 1)
        ∧ (rhs_shape d = out_shape d ∨ rhs_shape d = 1)) :
    RavelSpec idx ndim out_shape out_stride lhs_shape lhs_stride rhs_shape rhs_stride := by
  constructor
  · intro hfast
    unfold UnravelRavel
    rw [if_pos hfast]
    rw [ravel_fold_eq idx out_shape out_stride rhs_shape rhs_stride ndim
      fun d hd => ⟨(hsh d hd).1, (hsh d hd).2.2⟩]
  · intro hslow
    unfold UnravelRavel
    rw [if_neg hslow]
    rw [ravel_fold_eq idx out_shape out_stride lhs_shape lhs_stride ndim
      fun d hd => ⟨(hsh d hd).1, (hsh d hd).2.1⟩]

/-- Witness for C5: output shape `[3,2]`, a broadcast left operand
`[1,2]` (row-major strides), a non-broadcast right operand. -/
theorem unravel_ravel_indices_witness :
    RavelSpec 3 2 (fun d => [3, 2].getD d 1) (fun d => [2, 1].getD d 1)
      (fun d => [1, 2].getD d 1) (fun d => [2, 1].getD d 1)
      (fun d => [3, 2].getD d 1) (fun d => [2, 1].getD d 1) :=
  unravel_ravel_indices 3 2 (fun d => [3, 2].getD d 1) (fun d => [2, 1].getD d 1)
    (fun d => [1, 2].getD d 1) (fun d => [2, 1].getD d 1)
    (fun d => [3, 2].getD d 1) (fun d => [2, 1].getD d 1) (by decide)

/-- Claim C5 counterexample (to the claim as stated): with output shape
`[3,2]` (row-major strides `[2,1]`), left shape `[1,2]` with row-major
strides `[2,1]`, and right = output, all the claim's hypotheses hold at
`idx = 3`, and the leading strides coincide, so the code assigns the
left operand `idx = 3`; but the claimed uniform `min`-formula gives `1`.
The sub-conjuncts record that the hypotheses hold at both dimensions. -/
theorem unravel_ravel_counterexample :
    (UnravelRavel 3 2 (fun d => [3, 2].getD d 1) (fun d => [2, 1].getD d 1)
        (fun d => [1, 2].getD d 1) (fun d => [2, 1].getD d 1)
        (fun d => [3, 2].getD d 1) (fun d => [2, 1].getD d 1)).1 = 3
    ∧ ravelFormula 3 2 (fun d => [3, 2].getD d 1) (fun d => [2, 1].getD d 1)
        (fun d => [1, 2].getD d 1) (fun d => [2, 1].getD d 1) = 1
    ∧ (3 : Nat) ≠ 1
    ∧ [2, 1].getD 0 1 = [2, 1].getD 0 1
    ∧ [1, 2].getD 0 1 = 1 ∧ [1, 2].getD 1 1 = [3, 2].getD 1 1
    ∧ 3 < 3 * 2 := by
  decide

/-- The halving loop never grows its argument. -/
lemma fntLoop_le (dim : Nat) : ∀ (fuel ret : Nat), fntLoop dim fuel ret ≤ ret := by
  intro fuel
  induction fuel with
  | zero => intro ret; exact Nat.le_refl _
  | succ f ih =>
      intro ret
      unfold fntLoop
      rcases Nat.lt_or_ge dim ret with h | h
      · rw [if_pos h]
        exact (ih (ret / 2)).trans (Nat.div_le_self ret 2)
      · rw [if_neg (by omega)]

/-- Rounding up and multiplying back covers the problem size. -/
lemma ceil_mul_ge (n b : Nat) (hb : 1 ≤ b) : n ≤ ((n + b - 1) / b) * b := by
  have h := Nat.div_add_mod (n + b - 1) b
  have hr : (n + b - 1) % b < b := Nat.mod_lt _ (by omega)
  calc n ≤ b * ((n + b - 1) / b) + (n + b - 1) % b - (b - 1) := by omega
  _ ≤ ((n + b - 1) / b) * b := by
      rw [Nat.mul_comm]
      omega

/-- Claim C9 (amended): the COO SDDMM launch follows the claimed scheme —
feature-axis block width `FindNumThreads(len, 1024)` (at most 1024, at
least 1), remaining capacity `1024 / ntx` on the edge axis, grids rounded
up so that block×grid covers each axis — while the CSR SDDMM launch does
NOT: it uses grid `(E, 1)` and block `(1, min(128, len))`. -/
theorem sddmm_launch_dims (len nnz E : Nat) :
    SDDMMCooLaunch len nnz
      = (((len + FindNumThreads len 1024 - 1) / FindNumThreads len 1024,
          (nnz + 1024 / FindNumThreads len 1024 - 1) / (1024 / FindNumThreads len 1024)),
         (FindNumThreads len 1024, 1024 / FindNumThreads len 1024))
    ∧ 1 ≤ FindNumThreads len 1024
    ∧ FindNumThreads len 1024 ≤ 1024
    ∧ 1 ≤ 1024 / FindNumThreads len 1024
    ∧ len ≤ (len + FindNumThreads len 1024 - 1) / FindNumThreads len 1024
          * FindNumThreads len 1024
    ∧ nnz ≤ (nnz + 1024 / FindNumThreads len 1024 - 1) / (1024 / FindNumThreads len 1024)
          * (1024 / FindNumThreads len 1024)
    ∧ SDDMMCsrLaunch len E = ((E, 1), (1, if 128 < len then 128 else len)) := by
  have hpos : 1 ≤ FindNumThreads len 1024 := Nat.le_max_right _ 1
  have hle : FindNumThreads len 1024 ≤ 1024 :=
    Nat.max_le.mpr ⟨fntLoop_le len 1024 1024, by omega⟩
  have hnty : 1 ≤ 1024 / FindNumThreads len 1024 := by
    rw [Nat.le_div_iff_mul_le (by omega)]
    omega
  exact ⟨rfl, hpos, hle, hnty,
    ceil_mul_ge len (FindNumThreads len 1024) hpos,
    ceil_mul_ge nnz (1024 / FindNumThreads len 1024) hnty, rfl⟩

/-- Claim C9 counterexample (to the claim as stated): at feature width 4
and 10 edges, the CSR SDDMM launch is `((10,1),(1,4))` — in the CSR
kernel the x axis is the feature axis and the y axis the edge axis, so
the claimed scheme would require the edge-axis block dimension to be
`1024 / 1` and the x grid to be `ceil(4/1)`, neither of which holds. -/
theorem sddmm_csr_launch_counterexample :
    SDDMMCsrLaunch 4 10 = ((10, 1), (1, 4))
    ∧ ¬ ((SDDMMCsrLaunch 4 10).2.2 = 1024 / (SDDMMCsrLaunch 4 10).2.1
        ∧ (SDDMMCsrLaunch 4 10).1.1
            = (4 + (SDDMMCsrLaunch 4 10).2.1 - 1) / (SDDMMCsrLaunch 4 10).2.1
        ∧ (SDDMMCsrLaunch 4 10).1.2
            = (10 + (SDDMMCsrLaunch 4 10).2.2 - 1) / (SDDMMCsrLaunch 4 10).2.2) := by
  decide

/-- Claim C6 (amended): unused operands are never read — data or
metadata — by the SpMM kernels and by `SDDMMCoo`; `SDDMMCsr` never reads
an unused operand's data, but it DOES read `ufeat`'s shape metadata to
size the feature loop (see the counterexample). -/
theorem unused_operand_invariance (Op : OpT) (cmp : CmpT) (cop : CudaOp) (csr : CSRMatrix)
    (coo : COOMatrix) (u u' e e' vf vf' out : NDArray) (dim outNumel : Nat)
    (out0 : Nat → Int) (argu0 arge0 : Nat → Nat) :
    UnusedOperandSpec Op cmp cop csr coo u u' e e' vf vf' out dim outNumel out0 argu0 arge0 := by
  refine ⟨?_, ?_, ?_, ?_, ?_⟩
  · intro hL
    refine ⟨?_, ?_, ?_, ?_⟩
    · funext idx
      simp [SpMMSumCsr, sumRowCell, candVal, hL]
    · simp [SpMMSumCoo, cooCandVal, hL]
    · refine Prod.ext ?_ (Prod.ext ?_ ?_) <;> funext idx <;>
        simp [SpMMCmpCsr, cmpRowCell, candVal, hL]
    · simp [SpMMCmpCoo, cooCandVal, hL]
  · intro hR
    refine ⟨?_, ?_, ?_, ?_⟩
    · funext idx
      simp [SpMMSumCsr, sumRowCell, candVal, hR]
    · simp [SpMMSumCoo, cooCandVal, hR]
    · refine Prod.ext ?_ (Prod.ext ?_ ?_) <;> funext idx <;>
        simp [SpMMCmpCsr, cmpRowCell, candVal, hR]
    · simp [SpMMCmpCoo, cooCandVal, hR]
  · intro hcl hred
    simp [SDDMMCoo, SDDMMCooKernel, hcl, hred]
  · intro hcr
    constructor <;> simp [SDDMMCoo, SDDMMCooKernel, SDDMMCsr, SDDMMCsrKernel, hcr]
  · intro hcl hshape
    simp [SDDMMCsr, SDDMMCsrKernel, hcl, hshape]

/-- Witness for C6 at concrete operators with their usage flags off. -/
theorem unused_operand_invariance_witness :
    op.CopyRhs.use_lhs = false ∧ cudaCopyRhs.use_lhs = false
      ∧ UnusedOperandSpec op.CopyRhs op.Max cudaCopyRhs
          ⟨1, 1, 1, fun j => min j 1, fun _ => 0, none⟩
          ⟨1, 1, 1, fun _ => 0, fun _ => 0, none⟩
          ⟨[1, 1], fun _ => 1⟩ ⟨[1, 2], fun _ => 2⟩ ⟨[1, 1], fun _ => 3⟩ ⟨[1, 1], fun _ => 4⟩
          ⟨[1, 1], fun _ => 5⟩ ⟨[1, 1], fun _ => 6⟩ ⟨[1, 1], fun _ => 0⟩ 1 1
          (fun _ => 0) (fun _ => 0) (fun _ => 0) :=
  ⟨rfl, rfl,
    unused_operand_invariance op.CopyRhs op.Max cudaCopyRhs
      ⟨1, 1, 1, fun j => min j 1, fun _ => 0, none⟩
      ⟨1, 1, 1, fun _ => 0, fun _ => 0, none⟩
      ⟨[1, 1], fun _ => 1⟩ ⟨[1, 2], fun _ => 2⟩ ⟨[1, 1], fun _ => 3⟩ ⟨[1, 1], fun _ => 4⟩
      ⟨[1, 1], fun _ => 5⟩ ⟨[1, 1], fun _ => 6⟩ ⟨[1, 1], fun _ => 0⟩ 1 1
      (fun _ => 0) (fun _ => 0) (fun _ => 0)⟩

/-- Claim C6 counterexample (to the claim as stated): two `ufeat`
tensors with IDENTICAL data but different shape metadata, under the
copy-right operator (`use_lhs = false`), give different `SDDMMCsr`
outputs — the entry point reads the unused operand's shape to compute the
feature length, so a null `ufeat` would be dereferenced there. -/
theorem sddmm_csr_reads_unused_shape :
    cudaCopyRhs.use_lhs = false
    ∧ (⟨[1, 1], fun _ => 0⟩ : NDArray).data = (⟨[1, 2], fun _ => 0⟩ : NDArray).data
    ∧ SDDMMCsr cudaCopyRhs ⟨1, 1, 1, fun j => min j 1, fun _ => 0, none⟩
        ⟨[1, 1], fun _ => 0⟩ ⟨[1, 1], fun _ => 7⟩ ⟨[1, 2], fun _ => 0⟩ 1
      ≠ SDDMMCsr cudaCopyRhs ⟨1, 1, 1, fun j => min j 1, fun _ => 0, none⟩
        ⟨[1, 2], fun _ => 0⟩ ⟨[1, 1], fun _ => 7⟩ ⟨[1, 2], fun _ => 0⟩ 1 := by
  refine ⟨rfl, rfl, ?_⟩
  decide
